import Mathlib

/-!
# wilton_cli: the bootstrap resolver of `src/cli.cpp`

A shallow embedding of the decision logic of `cli.cpp` (engine selection,
startup module resolution, module path table construction, exit code
interpretation, source classification, one-liner synthesis, environment
variables, the run of the startup script) together with proofs of the
properties the specification states about it.

Conventions of the embedding:

* a `std::string` is a list of characters (`Str`);
* a C++ function that may throw returns `Except error _`;
* the filesystem, the compile-time switches and the helpers of the external
  `staticlib` libraries whose sources are not part of `cli.cpp` are gathered
  in the record `Env`, over which every result is universally quantified;
* the calls that change the world (plugin runtime, file writes, output
  streams) are gathered in the record `Sys`, with the state passed explicitly;
* `size_t` arithmetic is explicit (`size_sub`).
-/

namespace WiltonCli

/-- A `std::string`: a finite sequence of characters. -/
abbrev Str := List Char

/-! ## Compile-time constants and small string helpers -/

/-- Modelled from the spec: `wilton::support::file_proto_prefix` is declared in
`wilton/support/misc.hpp`, which is not part of `cli.cpp`; the spec names the
plain-filesystem protocol prefix `file://`. -/
def file_proto_prefix : Str := "file://".toList

/-- Modelled from the spec: `wilton::support::zip_proto_prefix` is declared in
`wilton/support/misc.hpp`; the spec names the archive protocol prefix `zip://`. -/
def zip_proto_prefix : Str := "zip://".toList

/-- Modelled from the spec: `wilton::support::binmod_postfix` is declared in
`wilton/support/misc.hpp`; it is the fixed archive suffix `.wlib` (the error
message of `prepare_paths` asks for `path/to/mymod.wlib`). -/
def binmod_postfix : Str := ".wlib".toList

/-- Modelled from the spec: `sl::utils::starts_with(value, start)` of the
external `staticlib_utils` library: `start` is a prefix of `value`. -/
def starts_with : Str → Str → Bool
  | _, [] => true
  | [], _ :: _ => false
  | v :: vs, s :: ss => v == s && starts_with vs ss

/-- Modelled from the spec: `sl::utils::ends_with(value, ending)` of the
external `staticlib_utils` library: `ending` is a suffix of `value`
(compared from the back, `false` when `ending` is longer). -/
def ends_with (value ending : Str) : Bool :=
  starts_with value.reverse ending.reverse

/-- Subtraction of two `size_t` values that are lengths of strings held in
memory (hence below `2^64`): the difference when it is non-negative, and the
wrapped value `a + 2^64 - b` when `a < b`. -/
def size_sub (a b : Nat) : Nat :=
  if b ≤ a then a - b else (a + 2 ^ 64 - b) % 2 ^ 64

/-- The call `s.substr(0, n)`: the first `n` characters, or the whole string
when `n` exceeds its length. -/
def substr0 (s : Str) (n : Nat) : Str := s.take n

/-! ## Engine selection -/

/-- The text `choose_default_engine` writes to `std::cerr` when it rejects. -/
def engine_conflict_message (opts_script_engine_name : Str) : Str :=
  "ERROR: only 'duktape' JS engine can be used for debugging".toList ++
  " (selected by default, if '-d' is specified),".toList ++
  " but another engine is requested: [".toList ++ opts_script_engine_name ++ "]".toList

/-- Function `choose_default_engine` (cli.cpp:373-387).  The first argument is
the macro `WILTON_DEFAULT_SCRIPT_ENGINE_STR` (`quickjs` unless the build
overrides it).  The result is the returned string paired with the text
written to `std::cerr` (`none` when nothing is written). -/
def choose_default_engine (default_script_engine : Str)
    (opts_script_engine_name debug_port : Str) : Str × Option Str :=
  if !debug_port.isEmpty && !opts_script_engine_name.isEmpty &&
      "duktape".toList != opts_script_engine_name then
    ([], some (engine_conflict_message opts_script_engine_name))
  else if !debug_port.isEmpty then
    ("duktape".toList, none)
  else if !opts_script_engine_name.isEmpty then
    (opts_script_engine_name, none)
  else
    (default_script_engine, none)

/-- The engine selector as the specification words it (section 4.3): a pure
function of the requested engine and the debug port that yields an engine
name, or `none` for a rejection. -/
def selectEngine (compiledDefault requestedEngine debugPort : Str) : Option Str :=
  if debugPort ≠ [] ∧ requestedEngine ≠ [] ∧ requestedEngine ≠ "duktape".toList then none
  else if debugPort ≠ [] then some "duktape".toList
  else if requestedEngine ≠ [] then some requestedEngine
  else some compiledDefault

/-! ## Exceptions, filesystem objects, JSON values -/

/-- The exceptions that leave the functions modelled here.  The first two are
the `wilton::support::exception`s thrown by `prepare_paths`, carrying the
offending path of their message; `config_field` is the exception of
`as_string_nonempty_or_throw`, carrying its context string; `external` stands
for any exception raised inside an external collaborator (JSON parser,
directory listing); the last three are the `wilton::support::exception`s of
`get_env_var_value` and `set_env_vars`. -/
inductive exception where
  | invalid_module_path (path : Str)
  | module_not_found (path : Str)
  | config_field (context : Str)
  | external (message : Str)
  | invalid_env_var_vector (parts_count : Nat)
  | invalid_env_var (var : Str)
  | setenv_failed (name value : Str)
  deriving DecidableEq, Repr

/-- A `sl::tinydir::path` object: the path it was created from or listed
under, its last component, and the flags read from the filesystem when it was
created.  The flag accessor `exists()` is called `file_exists` here. -/
structure path where
  filepath : Str
  filename : Str
  file_exists : Bool
  is_directory : Bool
  is_regular_file : Bool
  deriving DecidableEq, Repr

/-- A `sl::json::field` of the module path table: a logical module name and
the JSON string holding its protocol-qualified location. -/
structure field where
  name : Str
  val : Str
  deriving DecidableEq, Repr

/-- A `sl::json::value` (a real number is kept as its text). -/
inductive json_value where
  | nullt
  | boolean (b : Bool)
  | integer (i : Int)
  | real (text : Str)
  | string (s : Str)
  | array (items : List json_value)
  | object (fields : List (Str × json_value))

/-- Modelled from the spec: `sl::json::value::operator[](name)` of the external
`staticlib_json` library: the value of the first field called `name` of an
object, and the null value when there is none or the value is not an object. -/
def json_value.getattr (v : json_value) (name : Str) : json_value :=
  match v with
  | .object fields =>
    match fields.find? (fun f => f.1 == name) with
    | some f => f.2
    | none => .nullt
  | _ => .nullt

/-- Modelled from the spec: `sl::json::value::as_string_nonempty_or_throw(context)`
of the external `staticlib_json` library: the string held by the value when
it is a non-empty string, an exception naming `context` in every other case
(section 7: "required config field missing/empty"). -/
def json_value.as_string_nonempty_or_throw (v : json_value) (context : Str) :
    Except exception Str :=
  match v with
  | .string s => if s.isEmpty then .error (.config_field context) else .ok s
  | _ => .error (.config_field context)

/-- What `cli.cpp` takes from outside: the compile-time platform switch, the
state of the filesystem, and the helpers of the external `staticlib`
libraries whose exact behaviour is not fixed by `cli.cpp`. -/
structure Env where
  /-- Whether `STATICLIB_WINDOWS` is defined. -/
  windows : Bool
  /-- The helper `sl::utils::strip_parent_dir`: a path without its parent directories. -/
  strip_parent_dir : Str → Str
  /-- The helper `sl::utils::strip_filename`: the parent directory of a path. -/
  strip_filename : Str → Str
  /-- The helper `sl::utils::parse_uint16`: the parsed number, or an exception. -/
  parse_uint16 : Str → Except exception Nat
  /-- The constructor `sl::tinydir::path(p)`, which inspects the file at `p`. -/
  tinydir_path : Str → path
  /-- The function `sl::tinydir::full_path`: the absolute form of a path. -/
  full_path : Str → Str
  /-- The function `sl::tinydir::list_directory`: the children of a directory, in
  the order the platform lists them, or an exception. -/
  list_directory : Str → Except exception (List path)
  /-- The calls `cfile.open_read()` and `sl::json::load`: the parsed content of a file. -/
  json_load : path → Except exception json_value
  /-- The helper `sl::utils::trim`: a string without its leading and trailing whitespace. -/
  trim : Str → Str
  /-- The method `read_line` of a `sl::io` buffered source, on the bytes not yet
  read: the next line and the bytes left after it. -/
  read_line : Str → Str × Str
  /-- The bytes of the file opened by `sl::tinydir::file_source`, or an exception. -/
  file_source : Str → Except exception Str
  /-- The function `utf8::replace_invalid`: a byte string with every invalid UTF-8
  sequence replaced by the replacement character. -/
  replace_invalid : Str → Str

/-! ## Splitting on a delimiter -/

/-- The `std::getline` loop of `sl::utils::split`: `item` is the token read so far. -/
def split_loop (delim : Char) : Str → Str → List Str
  | [], item => if item.isEmpty then [] else [item]
  | c :: cs, item =>
    if c == delim then
      if item.isEmpty then split_loop delim cs [] else item :: split_loop delim cs []
    else split_loop delim cs (item ++ [c])

/-- Modelled from the spec: `sl::utils::split(str, delim)` of the external
`staticlib_utils` library: the tokens between delimiters, in order, empty
tokens dropped (a list may start with its own delimiter, section 4.2). -/
def split (str : Str) (delim : Char) : List Str := split_loop delim str []

/-- Function `platform_delimiter` (cli.cpp:135-146). -/
def platform_delimiter (env : Env) (arg : Str) : Char :=
  let delim := if env.windows then ';' else ':'
  if starts_with arg ";".toList || starts_with arg ":".toList then
    match arg with
    | c :: _ => c
    | [] => delim
  else delim

/-! ## Startup module resolution -/

/-- Function `load_app_config` (cli.cpp:86-99). -/
def load_app_config (env : Env) (appdir : Str) : Except exception (Option json_value) :=
  if !appdir.isEmpty then
    let pconf := env.tinydir_path (appdir ++ "conf/".toList)
    if pconf.file_exists then
      let cfile := env.tinydir_path (appdir ++ "conf/config.json".toList)
      if cfile.file_exists && !cfile.is_directory then
        match env.json_load cfile with
        | .ok val => .ok (some val)
        | .error e => .error e
      else .ok none
    else .ok none
  else .ok none

/-- Function `read_appname` (cli.cpp:101-108). -/
def read_appname (env : Env) (appdir : Str) : Except exception Str :=
  match load_app_config env appdir with
  | .error e => .error e
  | .ok (some json) =>
    (json.getattr "appname".toList).as_string_nonempty_or_throw "conf/config.json:appname".toList
  | .ok none => .ok []

/-- The loop `while (ends_with(mod, "/")) mod.pop_back();` (cli.cpp:122-124),
run for at most `fuel` iterations. -/
def pop_trailing_slashes : Nat → Str → Str
  | 0, mod => mod
  | fuel + 1, mod =>
    if ends_with mod "/".toList then pop_trailing_slashes fuel mod.dropLast else mod

/-- The first half of `find_startup_module` (cli.cpp:113-126): the value of
`mod` once the module name is resolved.  The loop gets as many iterations as
`mod` has characters, which is all it can use. -/
def resolve_mod (env : Env) (opts_startup_module_name appdir : Str) : Except exception Str :=
  if !opts_startup_module_name.isEmpty then
    .ok opts_startup_module_name
  else
    -- try to get appname
    match read_appname env appdir with
    | .error e => .error e
    | .ok mod =>
      if mod.isEmpty then
        -- fallback to dir name
        let mod := env.strip_parent_dir appdir
        .ok (pop_trailing_slashes mod.length mod)
      else .ok mod

/-- Function `find_startup_module` (cli.cpp:110-133); the result is the tuple
`(mod, appdir, script_id)`. -/
def find_startup_module (env : Env) (opts_startup_module_name startjs_full appdir : Str) :
    Except exception (Str × Str × Str) :=
  match resolve_mod env opts_startup_module_name appdir with
  | .error e => .error e
  | .ok mod =>
    let script := env.strip_parent_dir startjs_full
    let script :=
      if ends_with script ".js".toList then substr0 script (size_sub script.length 3)
      else script
    let script_id := mod ++ "/".toList ++ script
    .ok (mod, appdir, script_id)

/-! ## Module path table -/

/-- The loop over the binary modules (cli.cpp:156-171); `res` is the table built so far. -/
def binmods_loop (env : Env) (startmod : Str) : List Str → List field →
    Except exception (List field)
  | [], res => .ok res
  | mod :: rest, res =>
    if !ends_with mod binmod_postfix then .error (.invalid_module_path mod)
    else
      let modpath := env.tinydir_path mod
      if !(modpath.file_exists && modpath.is_regular_file) then .error (.module_not_found mod)
      else
        let modfile := env.strip_parent_dir mod
        let modsubname := substr0 modfile (size_sub modfile.length binmod_postfix.length)
        let modname := startmod ++ "/".toList ++ modsubname
        let modfullpath := env.full_path mod
        binmods_loop env startmod rest (res ++ [⟨modname, zip_proto_prefix ++ modfullpath⟩])

/-- The loop over the vendor library directory (cli.cpp:175-187). -/
def vendor_loop (env : Env) : List path → List field → List field
  | [], res => res
  | libpath :: rest, res =>
    if libpath.is_directory then
      let modname := libpath.filename
      vendor_loop env rest (res ++ [⟨modname, file_proto_prefix ++ libpath.filepath⟩])
    else if ends_with libpath.filename ".js".toList then
      let modname := substr0 libpath.filename (size_sub libpath.filename.length 3)
      let dirpath := env.strip_filename libpath.filepath
      vendor_loop env rest (res ++ [⟨modname, file_proto_prefix ++ dirpath ++ modname⟩])
    else if ends_with libpath.filename ".wlib".toList then
      let modname := substr0 libpath.filename (size_sub libpath.filename.length 5)
      vendor_loop env rest (res ++ [⟨modname, zip_proto_prefix ++ libpath.filepath⟩])
    else vendor_loop env rest res

/-- Function `prepare_paths` (cli.cpp:148-190). -/
def prepare_paths (env : Env) (wilton_home binary_modules_paths startmod startmod_dir : Str) :
    Except exception (List field) :=
  let res : List field := [⟨startmod, file_proto_prefix ++ startmod_dir⟩]
  let binmods := split binary_modules_paths (platform_delimiter env binary_modules_paths)
  match binmods_loop env startmod binmods res with
  | .error e => .error e
  | .ok res =>
    let libdir := env.tinydir_path (wilton_home ++ "/lib".toList)
    if libdir.file_exists then
      match env.list_directory libdir.filepath with
      | .error e => .error e
      | .ok children => .ok (vendor_loop env children res)
    else .ok res

/-! ## Exit code interpretation -/

/-- Function `parse_exit_code` (cli.cpp:444-460): `none` is the empty optional.
The parsed value is a `uint16_t`, converted to `uint8_t` once it is known to
be at most 255; every exception of the parser is caught. -/
def parse_exit_code (env : Env) (span : Str) : Option Nat :=
  if span.length > 3 then none
  else
    match env.parse_uint16 span with
    | .ok v =>
      let val16 := v % 2 ^ 16
      if val16 > 255 then none else some (val16 % 2 ^ 8)
    | .error _ => none

/-- The end of `run_startup_script` (cli.cpp:670-680): the exit status once
`wiltoncall_runscript` has returned the error `err_run` (`none` for a null
pointer) and the output span `out`, paired with the text written to
`std::cerr`. -/
def script_exit_status (env : Env) (err_run : Option Str) (out : Str) : Nat × Option Str :=
  match err_run with
  | some err => (1, some ("ERROR: ".toList ++ err))
  | none =>
    if out.length > 0 then
      match parse_exit_code env out with
      | some v => (v, none)
      | none => (0, none)
    else (0, none)

/-! ## Environment variables -/

/-- The loop of `get_env_var_value` (cli.cpp:253-256) over the parts from index
2 on. -/
def get_env_var_value_loop (env : Env) : List Str → Str → Str
  | [], value => value
  | part :: rest, value => get_env_var_value_loop env rest (value ++ ['='] ++ env.trim part)

/-- Function `get_env_var_value` (cli.cpp:248-258). -/
def get_env_var_value (env : Env) (parts : List Str) : Except exception Str :=
  match parts with
  | _ :: part1 :: rest => .ok (get_env_var_value_loop env rest (env.trim part1))
  | _ => .error (.invalid_env_var_vector parts.length)

/-- The loop of `set_env_vars` (cli.cpp:262-278).  The process environment is a
state of type `P` and `setenv` (`_putenv_s` on Windows) returns its error code
and the new state; the result is the exception that ended the loop, if any,
and the environment reached. -/
def set_env_vars_loop {P : Type} (env : Env) (setenv : P → Str → Str → Int × P) :
    List Str → P → Option exception × P
  | [], penv => (none, penv)
  | var :: rest, penv =>
    let parts := split var '='
    if parts.length < 2 then (some (.invalid_env_var var), penv)
    else
      let name := env.trim (parts.headD [])
      match get_env_var_value env parts with
      | .error e => (some e, penv)
      | .ok value =>
        let r := setenv penv name value
        if 0 ≠ r.1 then (some (.setenv_failed name value), r.2)
        else set_env_vars_loop env setenv rest r.2

/-- Function `set_env_vars` (cli.cpp:260-279). -/
def set_env_vars {P : Type} (env : Env) (setenv : P → Str → Str → Int × P)
    (environment_vars : Str) (penv : P) : Option exception × P :=
  set_env_vars_loop env setenv
    (split environment_vars (platform_delimiter env environment_vars)) penv

/-- The loop of `collect_env_vars` over the entries of `environ`
(cli.cpp:288-300). -/
def collect_env_vars_loop (env : Env) : List Str → List field →
    Except exception (List field)
  | [], vec => .ok vec
  | var :: rest, vec =>
    let parts := split var '='
    if parts.length ≥ 2 then
      let name := env.trim (parts.headD [])
      let name_clean := env.replace_invalid name
      match get_env_var_value env parts with
      | .error e => .error e
      | .ok value =>
        let value_clean := env.replace_invalid value
        collect_env_vars_loop env rest (vec ++ [⟨name_clean, value_clean⟩])
    else collect_env_vars_loop env rest vec

/-- Function `collect_env_vars` (cli.cpp:281-305) on the process environment
`environ`.  The final `std::sort` orders the fields by name; it is not
stable, and the model keeps fields of equal name in the order they were
collected, where the real sort may put them in any order: the results below
speak of which fields are recorded only, never of the order of fields of
equal name. -/
def collect_env_vars (env : Env) (environ : List Str) : Except exception (List field) :=
  match collect_env_vars_loop env environ [] with
  | .error e => .error e
  | .ok vec => .ok (vec.insertionSort (fun a b => ¬ b.name < a.name))

/-! ## One-liner synthesis -/

/-- The loop of `write_temp_one_liner` over the dependencies (cli.cpp:329-345):
`size` is `parts.size()`, the first argument the index `i`, the pair holds
`deps_line` and `args_line`. -/
def one_liner_loop (size : Nat) : Nat → List Str → Str × Str → Str × Str
  | _, [], lines => lines
  | i, dep :: rest, (deps_line, args_line) =>
    if dep.length > 0 then
      let deps_line := deps_line ++ "\"".toList ++ dep ++ "\"".toList
      let deps_line := if i < size_sub size 1 then deps_line ++ ", ".toList else deps_line
      let dep_parts := split dep '/'
      if dep_parts.length > 0 then
        let dep_name := dep_parts.getLast?.getD []
        let args_line := args_line ++ dep_name
        let args_line := if i < size_sub size 1 then args_line ++ ", ".toList else args_line
        one_liner_loop size (i + 1) rest (deps_line, args_line)
      else one_liner_loop size (i + 1) rest (deps_line, args_line)
    else one_liner_loop size (i + 1) rest (deps_line, args_line)

/-- The preparation of `deps_line` and `args_line` in `write_temp_one_liner`
(cli.cpp:324-346). -/
def one_liner_deps (deps : Str) : Str × Str :=
  if deps.length > 0 then
    let parts := split deps ':'
    one_liner_loop parts.length 0 parts ([], [])
  else ([], [])

/-- Modelled from the spec: the template of `write_temp_one_liner`
(cli.cpp:348-357) as `sl::io::make_replacer_source` of the external
`staticlib_io` library renders it, every placeholder replaced by the value
given for its name and the values copied as they are. -/
def one_liner_template (deps_line args_line code : Str) : Str :=
  "\ndefine([".toList ++ deps_line ++ "], function(".toList ++ args_line ++
  ") \x7b\n    \"use strict\";\n    return \x7b\n        main: function() \x7b\n".toList ++
  "            var RESULT = ".toList ++ code ++
  ";\n            print(RESULT);\n        \x7d\n    \x7d;\n\x7d);".toList

/-- The script body `write_temp_one_liner` writes (cli.cpp:324-369). -/
def one_liner_script (deps code : Str) : Str :=
  one_liner_template (one_liner_deps deps).1 (one_liner_deps deps).2 code

/-! ## Source classification -/

/-- The loop of `check_es_module` (cli.cpp:466-476) with `count` iterations
left, over the bytes `buf` the buffered source has not handed out yet. -/
def check_es_module_loop (env : Env) : Nat → Str → Bool
  | 0, _ => false
  | count + 1, buf =>
    let line := (env.read_line buf).1
    let trimmed := env.trim line
    if starts_with trimmed "define".toList then false
    else if starts_with trimmed "import".toList then true
    else check_es_module_loop env count (env.read_line buf).2

/-- Function `check_es_module` (cli.cpp:462-477): the buffered source reads
from a source limited to the first 1024 bytes of the file. -/
def check_es_module (env : Env) (path : Str) : Except exception Bool :=
  match env.file_source path with
  | .error e => .error e
  | .ok fi => .ok (check_es_module_loop env 32 (fi.take 1024))

/-! ## Startup invocation -/

/-- Modelled from the spec: the fields of `wilton::cli::cli_options` that
`run_startup_script` and the functions it calls read; the class is declared in
`cli_options.hpp`, which is not part of `cli.cpp`.  Flags are the `int`s the
option parser fills, compared with zero by the code. -/
structure cli_options where
  startup_script : Str
  startup_module_name : Str
  binary_modules_paths : Str
  exec_one_liner : Int
  exec_deps : Str
  exec_code : Str
  load_only : Int
  es_module : Int
  print_config : Int
  trace_enable : Int
  crypt_call_lib : Str
  crypt_call_name : Str

/-- The construction of `startup_call` in `run_startup_script`
(cli.cpp:614-637), before serialization: the JSON object handed to
`sl::json::dumps`.  The classifier `check_es_module` is only called when
neither flag is set, and its exception leaves the function. -/
def startup_call (env : Env) (opts : cli_options) (startmod_id startjs_full : Str)
    (appargs : List Str) : Except exception json_value :=
  -- prepare args
  let args_json := appargs.map json_value.string
  let esmodule_call : json_value :=
    .object [("esmodule".toList, .string ("file://".toList ++ startjs_full)),
             ("args".toList, .array args_json)]
  if opts.load_only ≠ 0 then
    .ok (.object [("module".toList, .string startmod_id)])
  else if opts.es_module ≠ 0 then
    .ok esmodule_call
  else
    match check_es_module env startjs_full with
    | .error e => .error e
    | .ok true => .ok esmodule_call
    | .ok false =>
      .ok (.object [("module".toList, .string startmod_id),
                    ("func".toList, .string "main".toList),
                    ("args".toList, .array args_json)])

/-! ## The run of the startup script -/

/-- The plugin runtime, the operating system and the build, as
`run_startup_script` meets them.  `W` is the state of everything outside the
function (files, output streams, loaded modules); every call that can change
it returns the new state.  An error message or exception is `none` when the
call succeeds. -/
structure Sys (W : Type) where
  /-- The filesystem and the library helpers as they answer in a state. -/
  view : W → Env
  /-- The serializer `sl::json::dumps`. -/
  dumps : json_value → Str
  /-- The macro `WILTON_VERSION_STR`. -/
  wilton_version : Str
  /-- The value of `compileTimeOS` chosen by the preprocessor, if any. -/
  compile_time_os : Option Str
  /-- The call `random_string_generator().generate(n)`. -/
  random_string : W → Nat → Str × W
  /-- The directory `GetTempPathW` reports (Windows only). -/
  temp_dir : W → Str
  /-- The calls `path.open_write()` and `sl::io::copy_all`: a file written. -/
  write_file : W → Str → Str → Option exception × W
  /-- The call `std::remove`, whose result the code ignores. -/
  remove : W → Str → W
  /-- Text and line end sent to `std::cerr`. -/
  cerr : W → Str → W
  /-- Text and line end sent to `std::cout`. -/
  cout : W → Str → W
  /-- The call `wilton_dyload` for a module name. -/
  wilton_dyload : W → Str → Option Str × W
  /-- The call `wilton_signal_initialize`. -/
  wilton_signal_initialize : W → Option Str × W
  /-- The call `SetErrorMode` (Windows only). -/
  set_error_mode : W → W
  /-- The call `wiltoncall` for a call name and its parameters; its outcome is dropped. -/
  wiltoncall : W → Str → Str → W
  /-- The function `wilton::cli::jvm::load_engine` of `jvm_engine.hpp`. -/
  jvm_load_engine : W → Str → Str → Str → List (Str × Str) → Option exception × W
  /-- The call `wiltoncall_init` on the serialized configuration. -/
  wiltoncall_init : W → Str → Option Str × W
  /-- The call `wiltoncall_runscript` for an engine and the serialized startup
  call: the error message and the output span. -/
  wiltoncall_runscript : W → Str → Str → (Option Str × Str) × W

/-- Modelled from the spec: `sl::json::value::as_string(default)` of the
external `staticlib_json` library: the string held by the value, and the
default when the value is not a string. -/
def json_value.as_string (v : json_value) (default_value : Str) : Str :=
  match v with
  | .string s => s
  | _ => default_value

/-- Function `write_temp_one_liner` (cli.cpp:307-371): the path of the file
written, or the exception of the write. -/
def write_temp_one_liner {W : Type} (sys : Sys W) (deps code : Str) (w : W) :
    Except exception Str × W :=
  -- prepare tmp file path
  let rnd := sys.random_string w 8
  let w := rnd.2
  let name := "wilton_".toList ++ rnd.1 ++ ".js".toList
  let path_str :=
    if (sys.view w).windows then sys.temp_dir w ++ "\\".toList ++ name
    else "/tmp/".toList ++ name
  -- load and format template
  match sys.write_file w path_str (one_liner_script deps code) with
  | (some e, w) => (.error e, w)
  | (none, w) => (.ok path_str, w)

/-- Function `dyload_module` (cli.cpp:192-197). -/
def dyload_module {W : Type} (sys : Sys W) (name : Str) (w : W) : Option exception × W :=
  match sys.wilton_dyload w name with
  | (some err_dyload, w) => (some (.external err_dyload), w)
  | (none, w) => (none, w)

/-- Function `init_signals` (cli.cpp:199-211). -/
def init_signals {W : Type} (sys : Sys W) (w : W) : Option exception × W :=
  match dyload_module sys "wilton_signal".toList w with
  | (some e, w) => (some e, w)
  | (none, w) =>
    match sys.wilton_signal_initialize w with
    | (some err_init, w) => (some (.external err_init), w)
    | (none, w) => (none, if (sys.view w).windows then sys.set_error_mode w else w)

/-- Function `report_loader_error` (cli.cpp:389-418). -/
def report_loader_error {W : Type} (sys : Sys W) (appdir : Str) (w : W) :
    Option exception × W :=
  match load_app_config (sys.view w) appdir with
  | .error e => (some e, w)
  | .ok conf =>
    let caption := "wilton".toList
    let msg := "Application loader error".toList
    let caption :=
      match conf with
      | some json => (json.getattr "appname".toList).as_string caption
      | none => caption
    let msg :=
      match conf with
      | some json => (json.getattr "loadermsg".toList).as_string msg
      | none => msg
    if (sys.view w).windows then
      match dyload_module sys "wilton_winscm".toList w with
      | (some e, w) => (some e, w)
      | (none, w) =>
        let pars := sys.dumps (.object [("caption".toList, .string caption),
          ("text".toList, .string msg), ("icon".toList, .string "error".toList)])
        (none, sys.wiltoncall w "winscm_misc_show_message_box".toList pars)
    else (none, sys.cerr w msg)

/-- Function `load_pre_engine_libs` (cli.cpp:420-431). -/
def load_pre_engine_libs {W : Type} (sys : Sys W) (opts : cli_options) (appdir : Str)
    (w : W) : Option exception × W :=
  match dyload_module sys "wilton_logging".toList w with
  | (some e, w) => (some e, w)
  | (none, w) =>
    let r := if !opts.crypt_call_lib.isEmpty then dyload_module sys opts.crypt_call_lib w
      else (none, w)
    match r with
    | (some e, w) => (some e, w)
    | (none, w) =>
      match sys.wilton_dyload w "wilton_loader".toList with
      | (some err, w) =>
        match report_loader_error sys appdir w with
        | (some e, w) => (some e, w)
        | (none, w) => (some (.external err), w)
      | (none, w) => (none, w)

/-- Function `load_script_engine` (cli.cpp:433-442). -/
def load_script_engine {W : Type} (sys : Sys W) (script_engine wilton_home modurl : Str)
    (env_vars : List (Str × Str)) (w : W) : Option exception × W :=
  if "rhino".toList ≠ script_engine ∧ "nashorn".toList ≠ script_engine then
    dyload_module sys ("wilton_".toList ++ script_engine) w
  else
    let exedir := wilton_home ++ "bin/".toList
    sys.jvm_load_engine w script_engine exedir modurl env_vars

/-- Function `create_wilton_config` (cli.cpp:479-519): the serialized
configuration, printed after the startup call when `print_config` is set. -/
def create_wilton_config {W : Type} (sys : Sys W) (opts : cli_options)
    (script_engine wilton_exec wilton_home modurl : Str) (paths : List field)
    (packages : List json_value) (env_vars : List field) (debug_port startup_call : Str)
    (w : W) : Str × W :=
  let fields_object (fs : List field) : json_value :=
    .object (fs.map (fun f => (f.name, json_value.string f.val)))
  let config := sys.dumps (.object (
    [ ("defaultScriptEngine".toList, .string script_engine),
      ("wiltonExecutable".toList, .string wilton_exec),
      ("wiltonHome".toList, .string wilton_home),
      ("wiltonVersion".toList, .string sys.wilton_version),
      ("requireJs".toList, .object [
        ("waitSeconds".toList, .integer 0),
        ("enforceDefine".toList, .boolean true),
        ("nodeIdCompat".toList, .boolean true),
        ("baseUrl".toList, .string modurl),
        ("paths".toList, fields_object paths),
        ("packages".toList, .array packages)]),
      ("environmentVariables".toList, fields_object env_vars) ] ++
    (match sys.compile_time_os with
     | some os => [("compileTimeOS".toList, json_value.string os)]
     | none => []) ++
    [ ("debugConnectionPort".toList, .string debug_port),
      ("traceEnable".toList, .boolean (decide (0 ≠ opts.trace_enable))),
      ("cryptCall".toList, .string opts.crypt_call_name) ]))
  if 0 ≠ opts.print_config then (config, sys.cout (sys.cout w startup_call) config)
  else (config, w)

/-- The part of `run_startup_script` that runs while the cleanup of the
temporary script is pending (cli.cpp:588-680): the exit status returned or
the exception that leaves it, and the state reached. -/
def run_startup_script_body {W : Type} (sys : Sys W) (opts : cli_options)
    (script_engine wilton_exec wilton_home modurl : Str) (packages : List json_value)
    (debug_port : Str) (env_vars : List field) (env_vars_pairs : List (Str × Str))
    (appargs : List Str) (startjs : Str) (w : W) : Except exception Nat × W :=
  let env := sys.view w
  let startjs_path := env.tinydir_path startjs
  if !startjs_path.file_exists then
    (.ok 1, sys.cerr w
      ("ERROR: specified script file not found: [".toList ++ startjs ++ "]".toList))
  else if !startjs_path.is_regular_file then
    (.ok 1, sys.cerr w
      ("ERROR: invalid script file specified: [".toList ++ startjs ++ "]".toList))
  else
    -- get startup module
    let startjs_full := env.full_path startjs
    let appdir := env.strip_filename startjs_full
    match find_startup_module env opts.startup_module_name startjs_full appdir with
    | .error e => (.error e, w)
    | .ok (startmod, startmod_dir, startmod_id) =>
      if startmod.isEmpty then
        (.ok 1, sys.cerr w
          "ERROR: cannot determine startup module name, use '-s' to specify it".toList)
      else
        -- prepare paths
        match prepare_paths env wilton_home opts.binary_modules_paths startmod startmod_dir with
        | .error e => (.error e, w)
        | .ok paths =>
          -- startup call
          match startup_call env opts startmod_id startjs_full appargs with
          | .error e => (.error e, w)
          | .ok call =>
            let startup_call := sys.dumps call
            -- prepare wilton config
            let cw := create_wilton_config sys opts script_engine wilton_exec wilton_home
              modurl paths packages env_vars debug_port startup_call w
            -- init wilton
            match sys.wiltoncall_init cw.2 cw.1 with
            | (some err_init, w) => (.ok 1, sys.cerr w ("ERROR: ".toList ++ err_init))
            | (none, w) =>
              -- load necessary libs
              match load_pre_engine_libs sys opts appdir w with
              | (some e, w) => (.error e, w)
              | (none, w) =>
                -- load script engine
                match load_script_engine sys script_engine wilton_home modurl
                    env_vars_pairs w with
                | (some e, w) => (.error e, w)
                | (none, w) =>
                  -- init signals/ctrl+c to allow their use from js
                  let r :=
                    if "rhino".toList ≠ script_engine ∧ "nashorn".toList ≠ script_engine then
                      init_signals sys w
                    else (none, w)
                  match r with
                  | (some e, w) => (.error e, w)
                  | (none, w) =>
                    -- call script
                    match sys.wiltoncall_runscript w script_engine startup_call with
                    | ((err_run, out), w) =>
                      let status := script_exit_status (sys.view w) err_run out
                      match status.2 with
                      | some msg => (.ok status.1, sys.cerr w msg)
                      | none => (.ok status.1, w)

/-- Function `run_startup_script` (cli.cpp:573-681).  The deferred
`tmpcleaner` runs when the function is left, by `return` or by an exception
(which `main` catches), and removes `startjs` in one-liner mode. -/
def run_startup_script {W : Type} (sys : Sys W) (opts : cli_options)
    (script_engine wilton_exec wilton_home modurl : Str) (packages : List json_value)
    (debug_port : Str) (env_vars : List field) (env_vars_pairs : List (Str × Str))
    (appargs : List Str) (w : W) : Except exception Nat × W :=
  -- check startup script
  let r : Except exception Str × W :=
    if 0 = opts.exec_one_liner then (.ok opts.startup_script, w)
    else write_temp_one_liner sys opts.exec_deps opts.exec_code w
  match r with
  | (.error e, w) => (.error e, w)
  | (.ok startjs, w) =>
    let res := run_startup_script_body sys opts script_engine wilton_exec wilton_home
      modurl packages debug_port env_vars env_vars_pairs appargs startjs w
    -- tmpcleaner
    if 0 ≠ opts.exec_one_liner then (res.1, sys.remove res.2 startjs) else res

/-! ## Specification-level vocabulary -/

/-- A string with a suffix of the length of `sfx` removed from its end. -/
def removeSuffix (s sfx : Str) : Str := s.take (s.length - sfx.length)

/-- The startup entry of the module path table, as section 4.2 (rule 1) words it. -/
def startupEntry (startupModuleName startupDir : Str) : field :=
  ⟨startupModuleName, "file://".toList ++ startupDir⟩

/-- The entry a child of the vendor library directory contributes, if any, as
section 4.2 (rule 3) words it. -/
def vendorEntry (env : Env) (child : path) : Option field :=
  if child.is_directory then
    some ⟨child.filename, "file://".toList ++ child.filepath⟩
  else if ends_with child.filename ".js".toList then
    some ⟨removeSuffix child.filename ".js".toList,
      "file://".toList ++ env.strip_filename child.filepath ++
        removeSuffix child.filename ".js".toList⟩
  else if ends_with child.filename ".wlib".toList then
    some ⟨removeSuffix child.filename ".wlib".toList, "zip://".toList ++ child.filepath⟩
  else none

/-- The children of the vendor library directory `wilton_home + "/lib"`: none
when the directory is missing, its listing (or the exception of the listing)
otherwise. -/
def vendorChildren (env : Env) (wilton_home : Str) : Except exception (List path) :=
  if (env.tinydir_path (wilton_home ++ "/lib".toList)).file_exists then
    env.list_directory (env.tinydir_path (wilton_home ++ "/lib".toList)).filepath
  else .ok []

/-- The entry the binary-module loop emits for one path, as the source computes it. -/
def binmod_entry (env : Env) (startmod mod : Str) : field :=
  ⟨startmod ++ "/".toList ++
      substr0 (env.strip_parent_dir mod)
        (size_sub (env.strip_parent_dir mod).length binmod_postfix.length),
    zip_proto_prefix ++ env.full_path mod⟩

/-- A binary module path passes both checks of the loop. -/
def binmod_accepted (env : Env) (mod : Str) : Prop :=
  ends_with mod binmod_postfix = true ∧ (env.tinydir_path mod).file_exists = true ∧
    (env.tinydir_path mod).is_regular_file = true

/-- The first `count` lines a buffered source hands out from the bytes `buf`,
each trimmed of surrounding whitespace. -/
def scannedLines (env : Env) : Nat → Str → List Str
  | 0, _ => []
  | count + 1, buf =>
    env.trim (env.read_line buf).1 :: scannedLines env count (env.read_line buf).2

/-- The field `collect_env_vars` records for one entry of `environ`, if any:
entries with fewer than two `=`-separated parts are skipped. -/
def envVarField (env : Env) (var : Str) : Option field :=
  match split var '=' with
  | part0 :: part1 :: rest =>
    some ⟨env.replace_invalid (env.trim part0),
      env.replace_invalid (List.intercalate ['='] ((part1 :: rest).map env.trim))⟩
  | _ => none

/-! ## A sample environment

A small concrete filesystem and straightforward implementations of the
external helpers, on which the results below are instantiated. -/

/-- Path separators recognised by the sample helpers. -/
def is_separator (c : Char) : Bool := c == '/' || c == '\\'

/-- A sample `strip_parent_dir`: the last path segment, together with the
separators that follow it. -/
def sample_strip_parent_dir (p : Str) : Str :=
  let r := p.reverse
  ((r.takeWhile is_separator) ++
    ((r.dropWhile is_separator).takeWhile (fun c => !is_separator c))).reverse

/-- A sample `strip_filename`: everything up to and including the last separator. -/
def sample_strip_filename (p : Str) : Str :=
  (p.reverse.dropWhile (fun c => !is_separator c)).reverse

/-- A sample `parse_uint16`: a non-empty string of decimal digits whose value
fits 16 bits. -/
def sample_parse_uint16 (s : Str) : Except exception Nat :=
  if s.isEmpty || !s.all Char.isDigit then
    .error (.external "Cannot parse uint16_t".toList)
  else
    let v := s.foldl (fun acc c => 10 * acc + (c.toNat - 48)) 0
    if v > 65535 then .error (.external "Value overflow for uint16_t".toList) else .ok v

/-- Whitespace for the sample `trim`: the characters `std::isspace` accepts. -/
def is_space (c : Char) : Bool :=
  c == ' ' || c == '\t' || c == '\n' || c == '\r' || c == Char.ofNat 11 || c == Char.ofNat 12

/-- A sample `trim`: leading and trailing whitespace removed. -/
def sample_trim (s : Str) : Str :=
  ((s.dropWhile is_space).reverse.dropWhile is_space).reverse

/-- A sample `read_line`: the bytes before the first line feed, and the bytes
after it; at the end of the input the line is what is left. -/
def sample_read_line (buf : Str) : Str × Str :=
  (buf.takeWhile (fun c => c != '\n'), (buf.dropWhile (fun c => c != '\n')).drop 1)

/-- A sample `replace_invalid`, exact on strings made of ASCII bytes and of
bytes `0xF8`-`0xFF`: the latter never start a UTF-8 sequence and are each
replaced by the encoding `EF BF BD` of U+FFFD; other bytes are kept. -/
def sample_replace_invalid (s : Str) : Str :=
  s.flatMap (fun c =>
    if c.toNat ≥ 248 then [Char.ofNat 239, Char.ofNat 191, Char.ofNat 189] else [c])

/-- The readable files of the sample filesystem and their content. -/
def sample_file_content : List (Str × Str) :=
  [ ("/srv/app/esm.js".toList, "\n\n\n\n\nimport foo from \"bar\";\n".toList),
    ("/srv/app/index.js".toList, "define([], function()\x7b...\x7d)".toList),
    ("/srv/app/plain.js".toList, "print(1);\n".toList),
    ("/srv/app/late.js".toList, List.replicate 32 '\n' ++ "import x;".toList),
    ("/srv/app/far.js".toList, List.replicate 1024 ' ' ++ "import x;".toList) ]

/-- The files of the sample filesystem. -/
def sample_files : List path :=
  [ ⟨"/opt/wilton/lib".toList, "lib".toList, true, true, false⟩,
    ⟨"/srv/mods/db.wlib".toList, "db.wlib".toList, true, false, true⟩,
    ⟨"/srv/mods/net.wlib".toList, "net.wlib".toList, true, false, true⟩,
    ⟨"/srv/mods/notes.txt".toList, "notes.txt".toList, true, false, true⟩,
    ⟨"/srv/shop/conf/".toList, "conf".toList, true, true, false⟩,
    ⟨"/srv/shop/conf/config.json".toList, "config.json".toList, true, false, true⟩,
    ⟨"/srv/blog/conf/".toList, "conf".toList, true, true, false⟩,
    ⟨"/srv/blog/conf/config.json".toList, "config.json".toList, true, false, true⟩,
    ⟨"/srv/broken/conf/".toList, "conf".toList, true, true, false⟩,
    ⟨"/srv/broken/conf/config.json".toList, "config.json".toList, true, false, true⟩ ]

/-- The children of the sample vendor library directory, in listing order. -/
def sample_vendor_children : List path :=
  [ ⟨"/opt/wilton/lib/app".toList, "app".toList, true, true, false⟩,
    ⟨"/opt/wilton/lib/lodash.js".toList, "lodash.js".toList, true, false, true⟩,
    ⟨"/opt/wilton/lib/README.txt".toList, "README.txt".toList, true, false, true⟩,
    ⟨"/opt/wilton/lib/extra.wlib".toList, "extra.wlib".toList, true, false, true⟩ ]

/-- The sample environment: a POSIX build over the sample filesystem.  The
config of `/srv/shop/` has no `appname`, the config of `/srv/blog/` names the
application `journal`, and the config of `/srv/broken/` is not valid JSON. -/
def sample_env : Env where
  windows := false
  strip_parent_dir := sample_strip_parent_dir
  strip_filename := sample_strip_filename
  parse_uint16 := sample_parse_uint16
  tinydir_path := fun p =>
    match sample_files.find? (fun f => f.filepath == p) with
    | some f => f
    | none => ⟨p, sample_strip_parent_dir p, false, false, false⟩
  full_path := fun p => p
  list_directory := fun d =>
    if d == "/opt/wilton/lib".toList then .ok sample_vendor_children
    else .error (.external "Error opening directory".toList)
  json_load := fun f =>
    if f.filepath == "/srv/shop/conf/config.json".toList then
      .ok (.object [("loadermsg".toList, .string "Shop failed to start".toList)])
    else if f.filepath == "/srv/blog/conf/config.json".toList then
      .ok (.object [("appname".toList, .string "journal".toList)])
    else .error (.external "Invalid JSON".toList)
  trim := sample_trim
  read_line := sample_read_line
  file_source := fun p =>
    match sample_file_content.find? (fun f => f.1 == p) with
    | some f => .ok f.2
    | none => .error (.external "Error opening file".toList)
  replace_invalid := sample_replace_invalid

/-- A sample serializer: the field names of an object joined by commas, the
text of a string, nothing for other values. -/
def sample_dumps (v : json_value) : Str :=
  match v with
  | .object fields => List.intercalate ",".toList (fields.map (fun f => f.1))
  | .string s => s
  | _ => []

/-- The initial state of the sample system: the sample files, without content. -/
def sample_world : List (path × Str) := sample_files.map (fun f => (f, []))

/-- The sample system: its state is the list of the files that exist, with
their content; every runtime call succeeds and the script returns the span
`script_output`. -/
def sample_sys (script_output : Str) : Sys (List (path × Str)) where
  view := fun w =>
    { sample_env with
      tinydir_path := fun p =>
        match w.find? (fun f => f.1.filepath == p) with
        | some f => f.1
        | none => ⟨p, sample_strip_parent_dir p, false, false, false⟩
      file_source := fun p =>
        match w.find? (fun f => f.1.filepath == p) with
        | some f => .ok f.2
        | none => .error (.external "Error opening file".toList) }
  dumps := sample_dumps
  wilton_version := "UNSPECIFIED".toList
  compile_time_os := some "linux".toList
  random_string := fun w _ => ("abcdefgh".toList, w)
  temp_dir := fun _ => "/tmp".toList
  write_file := fun w p content =>
    (none, (⟨p, sample_strip_parent_dir p, true, false, true⟩, content) :: w)
  remove := fun w p => w.filter (fun f => f.1.filepath != p)
  cerr := fun w _ => w
  cout := fun w _ => w
  wilton_dyload := fun w _ => (none, w)
  wilton_signal_initialize := fun w => (none, w)
  set_error_mode := fun w => w
  wiltoncall := fun w _ _ => w
  jvm_load_engine := fun w _ _ _ _ => (none, w)
  wiltoncall_init := fun w _ => (none, w)
  wiltoncall_runscript := fun w _ _ => ((none, script_output), w)

/-! ## Proofs -/

/-! ### Prefixes, suffixes and `size_t` -/

theorem starts_with_iff (v s : Str) : starts_with v s = true ↔ ∃ t, v = s ++ t := by
  induction s generalizing v with
  | nil => cases v <;> simp [starts_with]
  | cons c cs ih =>
    cases v with
    | nil => simp [starts_with]
    | cons d ds =>
      simp only [starts_with, Bool.and_eq_true, beq_iff_eq, ih, List.cons_append,
        List.cons.injEq]
      constructor
      · rintro ⟨rfl, t, rfl⟩
        exact ⟨t, rfl, rfl⟩
      · rintro ⟨t, rfl, rfl⟩
        exact ⟨rfl, t, rfl⟩

theorem ends_with_iff (v e : Str) : ends_with v e = true ↔ ∃ b, v = b ++ e := by
  unfold ends_with
  rw [starts_with_iff]
  constructor
  · rintro ⟨t, ht⟩
    refine ⟨t.reverse, ?_⟩
    have := congrArg List.reverse ht
    simpa using this
  · rintro ⟨b, rfl⟩
    exact ⟨b.reverse, by simp⟩

theorem ends_with_length (v e : Str) (h : ends_with v e = true) : e.length ≤ v.length := by
  obtain ⟨b, rfl⟩ := (ends_with_iff v e).1 h
  simp

theorem size_sub_of_le (a b : Nat) (h : b ≤ a) : size_sub a b = a - b := by
  simp [size_sub, h]

theorem removeSuffix_append (b sfx : Str) : removeSuffix (b ++ sfx) sfx = b := by
  simp [removeSuffix]

theorem substr0_size_sub (s sfx : Str) (h : ends_with s sfx = true) :
    substr0 s (size_sub s.length sfx.length) = removeSuffix s sfx := by
  simp [substr0, removeSuffix, size_sub_of_le _ _ (ends_with_length s sfx h)]

theorem append_removeSuffix (s sfx : Str) (h : ends_with s sfx = true) :
    removeSuffix s sfx ++ sfx = s := by
  obtain ⟨b, rfl⟩ := (ends_with_iff s sfx).1 h
  rw [removeSuffix_append]


/-! ### The loops -/

theorem pop_trailing_slashes_spec (fuel : Nat) (mod : Str) (h : mod.length ≤ fuel) :
    ends_with (pop_trailing_slashes fuel mod) "/".toList = false ∧
    ∃ k, mod = pop_trailing_slashes fuel mod ++ List.replicate k '/' := by
  induction fuel generalizing mod with
  | zero =>
    have hm : mod = [] := List.length_eq_zero.mp (Nat.le_zero.mp h)
    subst hm
    exact ⟨rfl, 0, rfl⟩
  | succ fuel ih =>
    unfold pop_trailing_slashes
    by_cases hs : ends_with mod "/".toList = true
    · obtain ⟨b, rfl⟩ := (ends_with_iff _ _).1 hs
      have hb : b.length ≤ fuel := by
        simp at h
        omega
      have hd : (b ++ "/".toList).dropLast = b := by
        show (b ++ ['/']).dropLast = b
        simp
      obtain ⟨h1, k, h2⟩ := ih b hb
      rw [if_pos hs, hd]
      refine ⟨h1, k + 1, ?_⟩
      conv_lhs => rw [h2]
      rw [List.append_assoc]
      congr 1
      show List.replicate k '/' ++ ['/'] = List.replicate (k + 1) '/'
      rw [List.replicate_succ']
    · rw [if_neg hs]
      exact ⟨by simpa using hs, 0, by simp⟩

theorem binmods_loop_of_accepted (env : Env) (startmod : Str) (mods : List Str)
    (res : List field) (hall : ∀ m ∈ mods, binmod_accepted env m) :
    binmods_loop env startmod mods res = .ok (res ++ mods.map (binmod_entry env startmod)) := by
  induction mods generalizing res with
  | nil => simp [binmods_loop]
  | cons m rest ih =>
    obtain ⟨h1, h2, h3⟩ := hall m (List.mem_cons_self _ _)
    have hrest : ∀ x ∈ rest, binmod_accepted env x :=
      fun x hx => hall x (List.mem_cons_of_mem _ hx)
    unfold binmods_loop
    simp only [h1, h2, h3, Bool.not_true, Bool.and_self, Bool.false_eq_true, if_false]
    rw [ih _ hrest]
    simp [binmod_entry]

theorem binmods_loop_ok_inv (env : Env) (startmod : Str) (mods : List Str)
    (res out : List field) (h : binmods_loop env startmod mods res = .ok out) :
    (∀ m ∈ mods, binmod_accepted env m) ∧
      out = res ++ mods.map (binmod_entry env startmod) := by
  induction mods generalizing res with
  | nil =>
    simp only [binmods_loop, Except.ok.injEq] at h
    simp [h]
  | cons m rest ih =>
    unfold binmods_loop at h
    by_cases h1 : ends_with m binmod_postfix = true
    · by_cases h2 : ((env.tinydir_path m).file_exists &&
          (env.tinydir_path m).is_regular_file) = true
      · simp only [h1, h2, Bool.not_true, Bool.false_eq_true, if_false] at h
        obtain ⟨ha, hb⟩ := ih _ h
        simp only [Bool.and_eq_true] at h2
        refine ⟨?_, ?_⟩
        · intro x hx
          rcases List.mem_cons.1 hx with rfl | hx
          · exact ⟨h1, h2.1, h2.2⟩
          · exact ha x hx
        · rw [hb]
          simp [binmod_entry]
      · simp [h1, h2] at h
    · simp [h1] at h

theorem binmods_loop_bad_suffix (env : Env) (startmod : Str) (pre : List Str) (bad : Str)
    (post : List Str) (res : List field) (hpre : ∀ m ∈ pre, binmod_accepted env m)
    (hbad : ends_with bad binmod_postfix = false) :
    binmods_loop env startmod (pre ++ bad :: post) res = .error (.invalid_module_path bad) := by
  induction pre generalizing res with
  | nil => simp [binmods_loop, hbad]
  | cons m rest ih =>
    obtain ⟨h1, h2, h3⟩ := hpre m (List.mem_cons_self _ _)
    have hrest : ∀ x ∈ rest, binmod_accepted env x :=
      fun x hx => hpre x (List.mem_cons_of_mem _ hx)
    rw [List.cons_append]
    unfold binmods_loop
    simp only [h1, h2, h3, Bool.not_true, Bool.and_self, Bool.false_eq_true, if_false]
    exact ih _ hrest

theorem binmods_loop_error_inv (env : Env) (startmod : Str) (mods : List Str)
    (res : List field) (e : exception) (h : binmods_loop env startmod mods res = .error e) :
    ∃ m ∈ mods, (e = .invalid_module_path m ∧ ends_with m binmod_postfix = false) ∨
      (e = .module_not_found m ∧ ends_with m binmod_postfix = true ∧
        ¬ ((env.tinydir_path m).file_exists = true ∧
          (env.tinydir_path m).is_regular_file = true)) := by
  induction mods generalizing res with
  | nil => simp [binmods_loop] at h
  | cons m rest ih =>
    unfold binmods_loop at h
    by_cases h1 : ends_with m binmod_postfix = true
    · by_cases h2 : ((env.tinydir_path m).file_exists &&
          (env.tinydir_path m).is_regular_file) = true
      · simp only [h1, h2, Bool.not_true, Bool.false_eq_true, if_false] at h
        obtain ⟨x, hx, hx2⟩ := ih _ h
        exact ⟨x, List.mem_cons_of_mem _ hx, hx2⟩
      · simp only [h1, h2, Bool.not_true, Bool.false_eq_true, if_false, Bool.not_false,
          if_true, Except.error.injEq] at h
        refine ⟨m, List.mem_cons_self _ _, Or.inr ⟨h.symm, h1, ?_⟩⟩
        simpa using h2
    · simp only [h1, Bool.not_false, if_true, Except.error.injEq] at h
      exact ⟨m, List.mem_cons_self _ _, Or.inl ⟨h.symm, by simpa using h1⟩⟩

theorem vendor_loop_eq (env : Env) (children : List path) (res : List field) :
    vendor_loop env children res = res ++ children.filterMap (vendorEntry env) := by
  induction children generalizing res with
  | nil => simp [vendor_loop]
  | cons c rest ih =>
    unfold vendor_loop
    by_cases hd : c.is_directory = true
    · simp only [if_pos hd, ih, List.filterMap_cons, vendorEntry]
      simp [ file_proto_prefix]
    · by_cases hj : ends_with c.filename ".js".toList = true
      · have hs := substr0_size_sub _ _ hj
        change substr0 c.filename (size_sub c.filename.length 3) = _ at hs
        simp only [if_neg hd, if_pos hj, ih, List.filterMap_cons, vendorEntry, hs]
        simp [ file_proto_prefix]
      · by_cases hw : ends_with c.filename ".wlib".toList = true
        · have hs := substr0_size_sub _ _ hw
          change substr0 c.filename (size_sub c.filename.length 5) = _ at hs
          simp only [if_neg hd, if_neg hj, if_pos hw, ih, List.filterMap_cons, vendorEntry, hs]
          simp [ zip_proto_prefix]
        · simp only [if_neg hd, if_neg hj, if_neg hw, ih, List.filterMap_cons, vendorEntry]

theorem prepare_paths_eq (env : Env) (wilton_home binary_modules_paths startmod
    startmod_dir : Str) :
    prepare_paths env wilton_home binary_modules_paths startmod startmod_dir =
      match binmods_loop env startmod
          (split binary_modules_paths (platform_delimiter env binary_modules_paths))
          [startupEntry startmod startmod_dir] with
      | .error e => .error e
      | .ok res =>
        match vendorChildren env wilton_home with
        | .error e => .error e
        | .ok children => .ok (res ++ children.filterMap (vendorEntry env)) := by
  unfold prepare_paths vendorChildren
  simp only [startupEntry, file_proto_prefix]
  cases binmods_loop env startmod
      (split binary_modules_paths (platform_delimiter env binary_modules_paths))
      [⟨startmod, "file://".toList ++ startmod_dir⟩] with
  | error e => rfl
  | ok res =>
    simp only
    by_cases hx : (env.tinydir_path (wilton_home ++ "/lib".toList)).file_exists = true
    · simp only [hx, if_true]
      cases env.list_directory (env.tinydir_path (wilton_home ++ "/lib".toList)).filepath with
      | error e => rfl
      | ok children => simp only [vendor_loop_eq]
    · simp only [hx, if_false, Bool.false_eq_true, List.filterMap_nil, List.append_nil]

/-- C1: `choose_default_engine` follows the decision table of the engine
selector: a rejection is the empty result, reported on the error stream
exactly in that case; the three examples of the specification hold. -/
theorem choose_default_engine_table (dflt requested debugPort : Str) :
    (choose_default_engine dflt requested debugPort).1
        = (selectEngine dflt requested debugPort).getD [] ∧
    ((choose_default_engine dflt requested debugPort).2.isSome
        ↔ selectEngine dflt requested debugPort = none) ∧
    (choose_default_engine dflt "duktape".toList "9229".toList).1 = "duktape".toList ∧
    selectEngine dflt "v8".toList "9229".toList = none ∧
    (choose_default_engine dflt "v8".toList "9229".toList).1 = [] ∧
    (choose_default_engine dflt [] []).1 = dflt := by
  refine ⟨?_, ?_, rfl, rfl, rfl, rfl⟩
  · unfold choose_default_engine selectEngine
    cases debugPort <;> cases requested <;> simp
    split <;> simp_all [eq_comm]
  · unfold choose_default_engine selectEngine
    cases debugPort <;> cases requested <;> simp
    split <;> simp_all [eq_comm]

/-! ### Module path table: the startup entry -/

theorem binmod_entry_name_ne (env : Env) (startmod mod : Str) :
    (binmod_entry env startmod mod).name ≠ startmod := by
  intro h
  have := congrArg List.length h
  simp [binmod_entry] at this

/-- C2 (counterexample): with the startup module called `app` and a vendor
library directory that holds a directory `app`, `prepare_paths` succeeds with
a table in which two entries carry the startup module name. -/
theorem prepare_paths_startup_name_twice :
    prepare_paths sample_env "/opt/wilton".toList [] "app".toList "/srv/app/".toList =
      .ok [⟨"app".toList, "file:///srv/app/".toList⟩,
           ⟨"app".toList, "file:///opt/wilton/lib/app".toList⟩,
           ⟨"lodash".toList, "file:///opt/wilton/lib/lodash".toList⟩,
           ⟨"extra".toList, "zip:///opt/wilton/lib/extra.wlib".toList⟩] ∧
    List.countP (fun f => f.name == "app".toList)
      [(⟨"app".toList, "file:///srv/app/".toList⟩ : field),
       ⟨"app".toList, "file:///opt/wilton/lib/app".toList⟩,
       ⟨"lodash".toList, "file:///opt/wilton/lib/lodash".toList⟩,
       ⟨"extra".toList, "zip:///opt/wilton/lib/extra.wlib".toList⟩] = 2 := by
  constructor
  · rfl
  · decide

/-- C2 (amended): whenever `prepare_paths` succeeds, the first entry of the
table is the startup entry (startup module name mapped to `file://` plus the
startup directory), it is followed by one entry per binary module, none of
which carries the startup module name, and then by the vendor entries; the
number of entries named like the startup module is one plus the number of
vendor entries with that name, hence exactly one when no vendor child
registers under the startup module name. -/
theorem prepare_paths_startup_entry_first (env : Env)
    (wilton_home binary_modules_paths startmod startmod_dir : Str) (tbl : List field)
    (h : prepare_paths env wilton_home binary_modules_paths startmod startmod_dir = .ok tbl) :
    tbl.head? = some ⟨startmod, "file://".toList ++ startmod_dir⟩ ∧
    ∃ bin children,
      vendorChildren env wilton_home = .ok children ∧
      tbl = ⟨startmod, "file://".toList ++ startmod_dir⟩ ::
        (bin ++ children.filterMap (vendorEntry env)) ∧
      bin.length =
        (split binary_modules_paths (platform_delimiter env binary_modules_paths)).length ∧
      (∀ f ∈ bin, f.name ≠ startmod) ∧
      tbl.countP (fun f => f.name == startmod) =
        1 + (children.filterMap (vendorEntry env)).countP (fun f => f.name == startmod) ∧
      ((∀ f ∈ children.filterMap (vendorEntry env), f.name ≠ startmod) →
        tbl.countP (fun f => f.name == startmod) = 1) := by
  rw [prepare_paths_eq] at h
  cases hb : binmods_loop env startmod
      (split binary_modules_paths (platform_delimiter env binary_modules_paths))
      [startupEntry startmod startmod_dir] with
  | error e => rw [hb] at h; cases h
  | ok res =>
    rw [hb] at h
    obtain ⟨-, hres⟩ := binmods_loop_ok_inv _ _ _ _ _ hb
    cases hv : vendorChildren env wilton_home with
    | error e => rw [hv] at h; cases h
    | ok children =>
      rw [hv] at h
      simp only [Except.ok.injEq] at h
      subst h
      subst hres
      have hbin : ∀ f ∈ (split binary_modules_paths
          (platform_delimiter env binary_modules_paths)).map (binmod_entry env startmod),
          f.name ≠ startmod := by
        intro f hf
        obtain ⟨m, -, rfl⟩ := List.mem_map.1 hf
        exact binmod_entry_name_ne env startmod m
      have hcount0 : List.countP (fun f : field => f.name == startmod)
          ((split binary_modules_paths
            (platform_delimiter env binary_modules_paths)).map (binmod_entry env startmod))
          = 0 := by
        rw [List.countP_eq_zero]
        intro f hf
        simpa using hbin f hf
      have hcount : List.countP (fun f : field => f.name == startmod)
          ([startupEntry startmod startmod_dir] ++
            (split binary_modules_paths
              (platform_delimiter env binary_modules_paths)).map (binmod_entry env startmod) ++
            children.filterMap (vendorEntry env)) =
          1 + (children.filterMap (vendorEntry env)).countP (fun f => f.name == startmod) := by
        rw [List.countP_append, List.countP_append, hcount0]
        simp [startupEntry]
      refine ⟨rfl, _, children, rfl, ?_, List.length_map _ _, hbin, hcount, ?_⟩
      · simp [startupEntry]
      · intro hno
        rw [hcount, List.countP_eq_zero.2]
        intro f hf
        simpa using hno f hf

/-- C2 (amended), instantiated: without a binary module list and with the
startup module called `shop`, the sample table starts with the startup entry
and holds one entry of that name. -/
theorem prepare_paths_startup_entry_first_witness :
    prepare_paths sample_env "/opt/wilton".toList [] "shop".toList "/srv/shop/".toList =
      .ok [⟨"shop".toList, "file:///srv/shop/".toList⟩,
           ⟨"app".toList, "file:///opt/wilton/lib/app".toList⟩,
           ⟨"lodash".toList, "file:///opt/wilton/lib/lodash".toList⟩,
           ⟨"extra".toList, "zip:///opt/wilton/lib/extra.wlib".toList⟩] ∧
    List.head? [(⟨"shop".toList, "file:///srv/shop/".toList⟩ : field),
           ⟨"app".toList, "file:///opt/wilton/lib/app".toList⟩,
           ⟨"lodash".toList, "file:///opt/wilton/lib/lodash".toList⟩,
           ⟨"extra".toList, "zip:///opt/wilton/lib/extra.wlib".toList⟩] =
      some ⟨"shop".toList, "file://".toList ++ "/srv/shop/".toList⟩ :=
  ⟨rfl, (prepare_paths_startup_entry_first sample_env "/opt/wilton".toList []
    "shop".toList "/srv/shop/".toList _ rfl).1⟩

/-! ### Module path table: binary modules -/

/-- C3 (counterexample): the list `/srv/mods/missing.wlib:/srv/mods/notes.txt`
holds a path without the archive suffix, yet `prepare_paths` fails with the
module-not-found error of the first path, not with the invalid-module-path
error. -/
theorem prepare_paths_not_found_before_bad_suffix :
    split "/srv/mods/missing.wlib:/srv/mods/notes.txt".toList
        (platform_delimiter sample_env "/srv/mods/missing.wlib:/srv/mods/notes.txt".toList) =
      ["/srv/mods/missing.wlib".toList, "/srv/mods/notes.txt".toList] ∧
    ends_with "/srv/mods/notes.txt".toList ".wlib".toList = false ∧
    prepare_paths sample_env "/opt/wilton".toList
        "/srv/mods/missing.wlib:/srv/mods/notes.txt".toList "app".toList "/srv/app/".toList =
      .error (.module_not_found "/srv/mods/missing.wlib".toList) ∧
    (Except.error (.module_not_found "/srv/mods/missing.wlib".toList) :
        Except exception (List field)) ≠
      .error (.invalid_module_path "/srv/mods/notes.txt".toList) := by
  refine ⟨rfl, rfl, rfl, ?_⟩
  intro h
  cases h

theorem first_false_split {α : Type} (p : α → Bool) (l : List α)
    (h : ∃ x ∈ l, p x = false) :
    ∃ pre x post, l = pre ++ x :: post ∧ (∀ y ∈ pre, p y = true) ∧ p x = false := by
  induction l with
  | nil =>
    obtain ⟨x, hx, -⟩ := h
    cases hx
  | cons a tl ih =>
    by_cases ha : p a = true
    · have htl : ∃ x ∈ tl, p x = false := by
        obtain ⟨x, hx, hpx⟩ := h
        rcases List.mem_cons.1 hx with rfl | hx
        · rw [ha] at hpx
          cases hpx
        · exact ⟨x, hx, hpx⟩
      obtain ⟨pre, x, post, hl, hpre, hx⟩ := ih htl
      refine ⟨a :: pre, x, post, by rw [hl]; rfl, ?_, hx⟩
      intro y hy
      rcases List.mem_cons.1 hy with rfl | hy
      · exact ha
      · exact hpre y hy
    · exact ⟨[], a, tl, rfl, fun y hy => absurd hy (List.not_mem_nil y), by simpa using ha⟩

theorem binmods_loop_not_found (env : Env) (startmod : Str) (pre : List Str) (miss : Str)
    (post : List Str) (res : List field) (hpre : ∀ m ∈ pre, binmod_accepted env m)
    (hsfx : ends_with miss binmod_postfix = true)
    (hmiss : ¬ ((env.tinydir_path miss).file_exists = true ∧
      (env.tinydir_path miss).is_regular_file = true)) :
    binmods_loop env startmod (pre ++ miss :: post) res = .error (.module_not_found miss) := by
  induction pre generalizing res with
  | nil =>
    have h2 : ((env.tinydir_path miss).file_exists &&
        (env.tinydir_path miss).is_regular_file) = false := by
      cases h3 : (env.tinydir_path miss).file_exists <;>
        cases h4 : (env.tinydir_path miss).is_regular_file <;> simp_all
    simp only [List.nil_append, binmods_loop, hsfx, h2, Bool.not_true, Bool.not_false,
      Bool.false_eq_true, if_false, if_true]
  | cons m rest ih =>
    obtain ⟨h1, h2, h3⟩ := hpre m (List.mem_cons_self _ _)
    have hrest : ∀ x ∈ rest, binmod_accepted env x :=
      fun x hx => hpre x (List.mem_cons_of_mem _ hx)
    rw [List.cons_append]
    unfold binmods_loop
    simp only [h1, h2, h3, Bool.not_true, Bool.and_self, Bool.false_eq_true, if_false]
    exact ih _ hrest

/-- C3 (amended): when some path of the binary module list lacks the suffix
`.wlib`, `prepare_paths` fails and returns no table, whatever the vendor
directory holds.  With `bad` the first path that lacks the suffix: the
failure is the invalid-module-path error of `bad` when every path before it
names an existing regular file (whether `bad` itself exists plays no role:
its suffix is checked first), and otherwise it is the module-not-found error
of the first path before `bad` that does not name an existing regular file. -/
theorem prepare_paths_rejects_bad_suffix (env : Env)
    (wilton_home binary_modules_paths startmod startmod_dir : Str)
    (h : ∃ m ∈ split binary_modules_paths (platform_delimiter env binary_modules_paths),
      ends_with m ".wlib".toList = false) :
    (∃ pre bad post,
      split binary_modules_paths (platform_delimiter env binary_modules_paths) =
        pre ++ bad :: post ∧
      (∀ m ∈ pre, ends_with m ".wlib".toList = true) ∧
      ends_with bad ".wlib".toList = false ∧
      (((∀ m ∈ pre, (env.tinydir_path m).file_exists = true ∧
            (env.tinydir_path m).is_regular_file = true) ∧
          prepare_paths env wilton_home binary_modules_paths startmod startmod_dir =
            .error (.invalid_module_path bad)) ∨
        (∃ pre1 miss pre2, pre = pre1 ++ miss :: pre2 ∧
          (∀ m ∈ pre1, (env.tinydir_path m).file_exists = true ∧
            (env.tinydir_path m).is_regular_file = true) ∧
          ¬ ((env.tinydir_path miss).file_exists = true ∧
            (env.tinydir_path miss).is_regular_file = true) ∧
          prepare_paths env wilton_home binary_modules_paths startmod startmod_dir =
            .error (.module_not_found miss)))) ∧
    (∀ pre bad post,
      split binary_modules_paths (platform_delimiter env binary_modules_paths) =
        pre ++ bad :: post →
      (∀ m ∈ pre, ends_with m ".wlib".toList = true ∧
        (env.tinydir_path m).file_exists = true ∧
        (env.tinydir_path m).is_regular_file = true) →
      ends_with bad ".wlib".toList = false →
      prepare_paths env wilton_home binary_modules_paths startmod startmod_dir =
        .error (.invalid_module_path bad)) ∧
    (∀ pre miss post,
      split binary_modules_paths (platform_delimiter env binary_modules_paths) =
        pre ++ miss :: post →
      (∀ m ∈ pre, ends_with m ".wlib".toList = true ∧
        (env.tinydir_path m).file_exists = true ∧
        (env.tinydir_path m).is_regular_file = true) →
      ends_with miss ".wlib".toList = true →
      ¬ ((env.tinydir_path miss).file_exists = true ∧
        (env.tinydir_path miss).is_regular_file = true) →
      prepare_paths env wilton_home binary_modules_paths startmod startmod_dir =
        .error (.module_not_found miss)) := by
  have hB : ∀ pre bad post,
      split binary_modules_paths (platform_delimiter env binary_modules_paths) =
        pre ++ bad :: post →
      (∀ m ∈ pre, ends_with m ".wlib".toList = true ∧
        (env.tinydir_path m).file_exists = true ∧
        (env.tinydir_path m).is_regular_file = true) →
      ends_with bad ".wlib".toList = false →
      prepare_paths env wilton_home binary_modules_paths startmod startmod_dir =
        .error (.invalid_module_path bad) := by
    intro pre bad post hsplit hpre hbad
    rw [prepare_paths_eq, hsplit, binmods_loop_bad_suffix env startmod pre bad post _ hpre hbad]
  have hC : ∀ pre miss post,
      split binary_modules_paths (platform_delimiter env binary_modules_paths) =
        pre ++ miss :: post →
      (∀ m ∈ pre, ends_with m ".wlib".toList = true ∧
        (env.tinydir_path m).file_exists = true ∧
        (env.tinydir_path m).is_regular_file = true) →
      ends_with miss ".wlib".toList = true →
      ¬ ((env.tinydir_path miss).file_exists = true ∧
        (env.tinydir_path miss).is_regular_file = true) →
      prepare_paths env wilton_home binary_modules_paths startmod startmod_dir =
        .error (.module_not_found miss) := by
    intro pre miss post hsplit hpre hsfx hmiss
    rw [prepare_paths_eq, hsplit,
      binmods_loop_not_found env startmod pre miss post _ hpre hsfx hmiss]
  refine ⟨?_, hB, hC⟩
  obtain ⟨pre, bad, post, hsplit, hpre, hbad⟩ :=
    first_false_split (fun m => ends_with m ".wlib".toList) _ h
  refine ⟨pre, bad, post, hsplit, hpre, hbad, ?_⟩
  by_cases hall : ∀ m ∈ pre, (env.tinydir_path m).file_exists = true ∧
      (env.tinydir_path m).is_regular_file = true
  · exact Or.inl ⟨hall, hB pre bad post hsplit
      (fun m hm => ⟨hpre m hm, (hall m hm).1, (hall m hm).2⟩) hbad⟩
  · right
    have hex : ∃ x ∈ pre, (fun m => (env.tinydir_path m).file_exists &&
        (env.tinydir_path m).is_regular_file) x = false := by
      by_contra hcon
      apply hall
      intro m hm
      have hm2 : ((env.tinydir_path m).file_exists &&
          (env.tinydir_path m).is_regular_file) = true := by
        by_contra hne
        exact hcon ⟨m, hm, by simpa using hne⟩
      simpa using hm2
    obtain ⟨pre1, miss, pre2, hpre_eq, hpre1, hmissb⟩ := first_false_split _ pre hex
    have hmiss_mem : miss ∈ pre := by
      rw [hpre_eq]
      exact List.mem_append_right _ (List.mem_cons_self _ _)
    have hpre1_mem : ∀ m ∈ pre1, m ∈ pre := by
      intro m hm
      rw [hpre_eq]
      exact List.mem_append_left _ hm
    have hpre1_ok : ∀ m ∈ pre1, (env.tinydir_path m).file_exists = true ∧
        (env.tinydir_path m).is_regular_file = true := by
      intro m hm
      have := hpre1 m hm
      simpa using this
    have hmiss : ¬ ((env.tinydir_path miss).file_exists = true ∧
        (env.tinydir_path miss).is_regular_file = true) := by
      intro hc
      have hb : ((env.tinydir_path miss).file_exists &&
          (env.tinydir_path miss).is_regular_file) = false := hmissb
      rw [hc.1, hc.2] at hb
      cases hb
    refine ⟨pre1, miss, pre2, hpre_eq, hpre1_ok, hmiss, ?_⟩
    apply hC pre1 miss (pre2 ++ bad :: post)
    · rw [hsplit, hpre_eq, List.append_assoc, List.cons_append]
    · intro m hm
      exact ⟨hpre m (hpre1_mem m hm), (hpre1_ok m hm).1, (hpre1_ok m hm).2⟩
    · exact hpre miss hmiss_mem
    · exact hmiss

/-- C3 (amended), instantiated: `/srv/mods/db.wlib:/srv/mods/notes.txt` is
rejected for the second path, although that file exists; and
`/srv/mods/db.wlib:/srv/mods/gone.wlib:/srv/mods/notes.txt` is rejected for
the second path, which is missing, before the suffix of the third is looked
at. -/
theorem prepare_paths_rejects_bad_suffix_witness :
    (sample_env.tinydir_path "/srv/mods/notes.txt".toList).file_exists = true ∧
    prepare_paths sample_env "/opt/wilton".toList
        "/srv/mods/db.wlib:/srv/mods/notes.txt".toList "app".toList "/srv/app/".toList =
      .error (.invalid_module_path "/srv/mods/notes.txt".toList) ∧
    prepare_paths sample_env "/opt/wilton".toList
        "/srv/mods/db.wlib:/srv/mods/gone.wlib:/srv/mods/notes.txt".toList
        "app".toList "/srv/app/".toList =
      .error (.module_not_found "/srv/mods/gone.wlib".toList) :=
  ⟨rfl, (prepare_paths_rejects_bad_suffix sample_env "/opt/wilton".toList
      "/srv/mods/db.wlib:/srv/mods/notes.txt".toList "app".toList "/srv/app/".toList
      ⟨"/srv/mods/notes.txt".toList, by decide, rfl⟩).2.1
    ["/srv/mods/db.wlib".toList] "/srv/mods/notes.txt".toList [] rfl
    (by
      intro m hm
      rw [List.mem_singleton] at hm
      subst hm
      exact ⟨rfl, rfl, rfl⟩)
    rfl,
   (prepare_paths_rejects_bad_suffix sample_env "/opt/wilton".toList
      "/srv/mods/db.wlib:/srv/mods/gone.wlib:/srv/mods/notes.txt".toList
      "app".toList "/srv/app/".toList
      ⟨"/srv/mods/notes.txt".toList, by decide, rfl⟩).2.2
    ["/srv/mods/db.wlib".toList] "/srv/mods/gone.wlib".toList
    ["/srv/mods/notes.txt".toList] rfl
    (by
      intro m hm
      rw [List.mem_singleton] at hm
      subst hm
      exact ⟨rfl, rfl, rfl⟩)
    rfl (by decide)⟩

/-- C4: when every path of the binary module list ends with `.wlib` and names
an existing regular file (its file name then ending with `.wlib` as well),
`prepare_paths` emits, right after the startup entry and in the order of the
list, one entry per path: startup module name, `/`, and the file name
without its final `.wlib`, located at `zip://` plus the absolute path.  The
table is returned unless listing the vendor directory raises.  The file name
is at least as long as the suffix taken from it. -/
theorem prepare_paths_binary_entries (env : Env)
    (wilton_home binary_modules_paths startmod startmod_dir : Str)
    (hall : ∀ m ∈ split binary_modules_paths (platform_delimiter env binary_modules_paths),
      ends_with m ".wlib".toList = true ∧ (env.tinydir_path m).file_exists = true ∧
        (env.tinydir_path m).is_regular_file = true)
    (hname : ∀ m ∈ split binary_modules_paths (platform_delimiter env binary_modules_paths),
      ends_with (env.strip_parent_dir m) ".wlib".toList = true) :
    prepare_paths env wilton_home binary_modules_paths startmod startmod_dir =
      (match vendorChildren env wilton_home with
       | .error e => .error e
       | .ok children =>
         .ok (⟨startmod, "file://".toList ++ startmod_dir⟩ ::
           ((split binary_modules_paths
               (platform_delimiter env binary_modules_paths)).map
               (fun m => (⟨startmod ++ "/".toList ++
                    removeSuffix (env.strip_parent_dir m) ".wlib".toList,
                  "zip://".toList ++ env.full_path m⟩ : field)) ++
             children.filterMap (vendorEntry env)))) ∧
    ∀ m ∈ split binary_modules_paths (platform_delimiter env binary_modules_paths),
      ".wlib".toList.length ≤ (env.strip_parent_dir m).length ∧
      size_sub (env.strip_parent_dir m).length binmod_postfix.length =
        (env.strip_parent_dir m).length - 5 ∧
      removeSuffix (env.strip_parent_dir m) ".wlib".toList ++ ".wlib".toList =
        env.strip_parent_dir m := by
  constructor
  · rw [prepare_paths_eq, binmods_loop_of_accepted env startmod _ _ hall]
    have hmap : (split binary_modules_paths
        (platform_delimiter env binary_modules_paths)).map (binmod_entry env startmod) =
        (split binary_modules_paths (platform_delimiter env binary_modules_paths)).map
          (fun m => (⟨startmod ++ "/".toList ++
              removeSuffix (env.strip_parent_dir m) ".wlib".toList,
            "zip://".toList ++ env.full_path m⟩ : field)) := by
      apply List.map_congr_left
      intro m hm
      have := substr0_size_sub _ _ (hname m hm)
      simp only [binmod_entry, binmod_postfix, zip_proto_prefix]
      rw [this]
    rw [hmap]
    rfl
  · intro m hm
    have hl := ends_with_length _ _ (hname m hm)
    refine ⟨hl, ?_, append_removeSuffix _ _ (hname m hm)⟩
    exact size_sub_of_le _ _ hl

/-- C4, instantiated on the sample filesystem with two binary modules. -/
theorem prepare_paths_binary_entries_witness :
    prepare_paths sample_env "/opt/wilton".toList
        "/srv/mods/db.wlib:/srv/mods/net.wlib".toList "app".toList "/srv/app/".toList =
      .ok [⟨"app".toList, "file:///srv/app/".toList⟩,
           ⟨"app/db".toList, "zip:///srv/mods/db.wlib".toList⟩,
           ⟨"app/net".toList, "zip:///srv/mods/net.wlib".toList⟩,
           ⟨"app".toList, "file:///opt/wilton/lib/app".toList⟩,
           ⟨"lodash".toList, "file:///opt/wilton/lib/lodash".toList⟩,
           ⟨"extra".toList, "zip:///opt/wilton/lib/extra.wlib".toList⟩] :=
  (prepare_paths_binary_entries sample_env "/opt/wilton".toList
    "/srv/mods/db.wlib:/srv/mods/net.wlib".toList "app".toList "/srv/app/".toList
    (by
      intro m hm
      have hm2 : m = "/srv/mods/db.wlib".toList ∨ m = "/srv/mods/net.wlib".toList := by
        simpa using (show m ∈ ["/srv/mods/db.wlib".toList, "/srv/mods/net.wlib".toList]
          from hm)
      rcases hm2 with rfl | rfl <;> exact ⟨rfl, rfl, rfl⟩)
    (by
      intro m hm
      have hm2 : m = "/srv/mods/db.wlib".toList ∨ m = "/srv/mods/net.wlib".toList := by
        simpa using (show m ∈ ["/srv/mods/db.wlib".toList, "/srv/mods/net.wlib".toList]
          from hm)
      rcases hm2 with rfl | rfl <;> rfl)).1.trans rfl

/-! ### Module path table: vendor libraries -/

/-- C5: once the binary modules are accepted, the table starts with the
startup entry and the binary-module entries (`pre`) and `prepare_paths`
appends to them, in listing order, exactly the entries of the children of
`wilton_home + "/lib"`: a directory gives its name at `file://` plus its path,
another child called `x.js` gives `x` at `file://` plus parent directory plus
`x`, another child called `x.wlib` gives `x` at `zip://` plus its path, any
other child gives nothing; a missing vendor directory gives no entry and no
error. -/
theorem prepare_paths_vendor_entries (env : Env)
    (wilton_home binary_modules_paths startmod startmod_dir : Str)
    (hall : ∀ m ∈ split binary_modules_paths (platform_delimiter env binary_modules_paths),
      ends_with m ".wlib".toList = true ∧ (env.tinydir_path m).file_exists = true ∧
        (env.tinydir_path m).is_regular_file = true) :
    ∃ pre : List field,
      pre.head? = some ⟨startmod, "file://".toList ++ startmod_dir⟩ ∧
      pre.length =
        1 + (split binary_modules_paths
          (platform_delimiter env binary_modules_paths)).length ∧
      ((env.tinydir_path (wilton_home ++ "/lib".toList)).file_exists = false →
        prepare_paths env wilton_home binary_modules_paths startmod startmod_dir = .ok pre) ∧
      (∀ children,
        (env.tinydir_path (wilton_home ++ "/lib".toList)).file_exists = true →
        env.list_directory (env.tinydir_path (wilton_home ++ "/lib".toList)).filepath =
          .ok children →
        prepare_paths env wilton_home binary_modules_paths startmod startmod_dir =
          .ok (pre ++ children.filterMap (fun child =>
            if child.is_directory then
              some ⟨child.filename, "file://".toList ++ child.filepath⟩
            else if ends_with child.filename ".js".toList then
              some ⟨removeSuffix child.filename ".js".toList,
                "file://".toList ++ env.strip_filename child.filepath ++
                  removeSuffix child.filename ".js".toList⟩
            else if ends_with child.filename ".wlib".toList then
              some ⟨removeSuffix child.filename ".wlib".toList,
                "zip://".toList ++ child.filepath⟩
            else none))) := by
  refine ⟨[startupEntry startmod startmod_dir] ++
    (split binary_modules_paths
      (platform_delimiter env binary_modules_paths)).map (binmod_entry env startmod),
    rfl, ?_, ?_, ?_⟩
  · simp
    omega
  · intro hx
    rw [prepare_paths_eq, binmods_loop_of_accepted env startmod _ _ hall]
    simp only [vendorChildren, hx, Bool.false_eq_true, if_false, List.filterMap_nil,
      List.append_nil]
  · intro children hx hl
    rw [prepare_paths_eq, binmods_loop_of_accepted env startmod _ _ hall]
    simp only [vendorChildren, hx, if_true, hl]
    rfl

/-- C5, instantiated: the four children of the sample vendor directory give
three entries, in listing order, after the startup entry. -/
theorem prepare_paths_vendor_entries_witness :
    ∃ pre : List field,
      pre.head? = some ⟨"app".toList, "file://".toList ++ "/srv/app/".toList⟩ ∧
      pre.length = 1 + (split [] (platform_delimiter sample_env [])).length ∧
      prepare_paths sample_env "/opt/wilton".toList [] "app".toList "/srv/app/".toList =
        .ok (pre ++ [⟨"app".toList, "file:///opt/wilton/lib/app".toList⟩,
           ⟨"lodash".toList, "file:///opt/wilton/lib/lodash".toList⟩,
           ⟨"extra".toList, "zip:///opt/wilton/lib/extra.wlib".toList⟩]) := by
  obtain ⟨pre, h1, h2, -, h4⟩ := prepare_paths_vendor_entries sample_env
    "/opt/wilton".toList [] "app".toList "/srv/app/".toList
    (by intro m hm; cases hm)
  exact ⟨pre, h1, h2, h4 sample_vendor_children rfl rfl⟩

/-! ### Startup module resolution -/

/-- C6: a non-empty explicit module name is returned as the module name,
together with the application directory passed in, for every startup script,
application directory, filesystem and config content; the call does not fail. -/
theorem find_startup_module_explicit (env : Env) (n startjs_full appdir : Str)
    (hn : n ≠ []) :
    ∃ script_id, find_startup_module env n startjs_full appdir = .ok (n, appdir, script_id) := by
  cases n with
  | nil => exact absurd rfl hn
  | cons c cs =>
    simp only [find_startup_module, resolve_mod, List.isEmpty_cons, Bool.not_false, if_true]
    exact ⟨_, rfl⟩

/-- C6, instantiated: in `/srv/broken/`, whose config is not valid JSON and
makes the resolution fail without an explicit name, the explicit name `main`
is returned. -/
theorem find_startup_module_explicit_witness :
    find_startup_module sample_env [] "/srv/broken/index.js".toList "/srv/broken/".toList =
      .error (.external "Invalid JSON".toList) ∧
    ∃ script_id,
      find_startup_module sample_env "main".toList "/srv/broken/index.js".toList
        "/srv/broken/".toList = .ok ("main".toList, "/srv/broken/".toList, script_id) :=
  ⟨rfl, find_startup_module_explicit sample_env "main".toList "/srv/broken/index.js".toList
    "/srv/broken/".toList (by decide)⟩

theorem load_app_config_absent (env : Env) (appdir : Str)
    (h : (env.tinydir_path (appdir ++ "conf/config.json".toList)).file_exists = false) :
    load_app_config env appdir = .ok none := by
  unfold load_app_config
  by_cases h1 : (!appdir.isEmpty) = true
  · rw [if_pos h1]
    by_cases h2 : (env.tinydir_path (appdir ++ "conf/".toList)).file_exists = true
    · rw [if_pos h2]
      simp only [h, Bool.false_and, Bool.false_eq_true, if_false]
    · rw [if_neg h2]
  · rw [if_neg h1]

/-- C7: without an explicit module name and without a config file
(`conf/config.json` absent), `find_startup_module` succeeds and the module
name is the final path segment of the application directory (what
`strip_parent_dir` returns for it) with all trailing `/` stripped: it does not
end with `/` and differs from that segment only by a run of `/` at the end. -/
theorem find_startup_module_dir_fallback (env : Env) (startjs_full appdir : Str)
    (hconf : (env.tinydir_path (appdir ++ "conf/config.json".toList)).file_exists = false) :
    ∃ mod script_id,
      find_startup_module env [] startjs_full appdir = .ok (mod, appdir, script_id) ∧
      ends_with mod "/".toList = false ∧
      ∃ k, env.strip_parent_dir appdir = mod ++ List.replicate k '/' := by
  have hload := load_app_config_absent env appdir hconf
  obtain ⟨h1, k, h2⟩ := pop_trailing_slashes_spec (env.strip_parent_dir appdir).length
    (env.strip_parent_dir appdir) (Nat.le_refl _)
  have hres : resolve_mod env [] appdir =
      .ok (pop_trailing_slashes (env.strip_parent_dir appdir).length
        (env.strip_parent_dir appdir)) := by
    simp only [resolve_mod, read_appname, hload, List.isEmpty_nil,
      Bool.not_true, Bool.false_eq_true, if_false, if_true]
  simp only [find_startup_module, hres]
  exact ⟨_, _, rfl, h1, k, h2⟩

/-- C7, instantiated: the application directory `/srv/app//` of the sample
filesystem, which has no config file, resolves to the module name `app`. -/
theorem find_startup_module_dir_fallback_witness :
    find_startup_module sample_env [] "/srv/app/index.js".toList "/srv/app//".toList =
      .ok ("app".toList, "/srv/app//".toList, "app/index".toList) ∧
    ∃ mod script_id,
      find_startup_module sample_env [] "/srv/app/index.js".toList "/srv/app//".toList =
        .ok (mod, "/srv/app//".toList, script_id) ∧
      ends_with mod "/".toList = false ∧
      ∃ k, sample_env.strip_parent_dir "/srv/app//".toList = mod ++ List.replicate k '/' :=
  ⟨rfl, find_startup_module_dir_fallback sample_env "/srv/app/index.js".toList
    "/srv/app//".toList rfl⟩

/-- C8 (counterexample): the config file of `/srv/shop/` exists and has no
`appname` field; without an explicit module name `find_startup_module` fails
with the config-field error instead of falling back to the directory name. -/
theorem find_startup_module_missing_appname_fails :
    load_app_config sample_env "/srv/shop/".toList =
      .ok (some (.object [("loadermsg".toList, .string "Shop failed to start".toList)])) ∧
    (json_value.object
        [("loadermsg".toList, .string "Shop failed to start".toList)]).getattr
      "appname".toList = .nullt ∧
    find_startup_module sample_env [] "/srv/shop/index.js".toList "/srv/shop/".toList =
      .error (.config_field "conf/config.json:appname".toList) :=
  ⟨rfl, rfl, rfl⟩

/-- C8 (amended): when no explicit module name is given and the application
config is loaded, `find_startup_module` returns the `appname` of the config as
the module name when it is a non-empty string, and fails with the
config-field error in every other case: `appname` empty, not a string, or
missing.  (The directory-name fallback is taken only when no config is
loaded.) -/
theorem find_startup_module_with_config (env : Env) (startjs_full appdir : Str)
    (cfg : json_value) (hcfg : load_app_config env appdir = .ok (some cfg)) :
    (∀ s, cfg.getattr "appname".toList = .string s → s ≠ [] →
      ∃ script_id,
        find_startup_module env [] startjs_full appdir = .ok (s, appdir, script_id)) ∧
    ((¬ ∃ s, cfg.getattr "appname".toList = .string s ∧ s ≠ []) →
      find_startup_module env [] startjs_full appdir =
        .error (.config_field "conf/config.json:appname".toList)) := by
  constructor
  · intro s hs hne
    cases s with
    | nil => exact absurd rfl hne
    | cons c cs =>
      have hres : resolve_mod env [] appdir = .ok (c :: cs) := by
        simp only [resolve_mod, read_appname, hcfg, hs,
          json_value.as_string_nonempty_or_throw, List.isEmpty_nil, List.isEmpty_cons,
          Bool.not_true, Bool.false_eq_true, if_false]
      simp only [find_startup_module, hres]
      exact ⟨_, rfl⟩
  · intro hno
    have hres : resolve_mod env [] appdir =
        .error (.config_field "conf/config.json:appname".toList) := by
      simp only [resolve_mod, read_appname, hcfg, List.isEmpty_nil, Bool.not_true,
        Bool.false_eq_true, if_false]
      cases hv : cfg.getattr "appname".toList with
      | string s =>
        cases s with
        | nil => rfl
        | cons c cs => exact absurd ⟨c :: cs, hv, by simp⟩ hno
      | _ => rfl
    simp only [find_startup_module, hres]

/-- C8 (amended), instantiated: the config of `/srv/blog/` names the
application `journal`, which becomes the module name. -/
theorem find_startup_module_with_config_witness :
    load_app_config sample_env "/srv/blog/".toList =
      .ok (some (.object [("appname".toList, .string "journal".toList)])) ∧
    ∃ script_id,
      find_startup_module sample_env [] "/srv/blog/index.js".toList "/srv/blog/".toList =
        .ok ("journal".toList, "/srv/blog/".toList, script_id) :=
  ⟨rfl, (find_startup_module_with_config sample_env "/srv/blog/index.js".toList
    "/srv/blog/".toList (.object [("appname".toList, .string "journal".toList)]) rfl).1
    "journal".toList rfl (by decide)⟩

/-- C9: every successful call of `find_startup_module` returns the
application directory it was given and the startup module id
`mod + "/" + base`, where `mod` is the returned module name and `base` is the
file name of the startup script (its parent directories stripped) without
one trailing `.js` when the file name ends in `.js`, and the file name itself
otherwise; the file name `app.js.js` gives the base name `app.js`. -/
theorem find_startup_module_script_id (env : Env) (n startjs_full appdir : Str)
    (mod dir script_id : Str)
    (h : find_startup_module env n startjs_full appdir = .ok (mod, dir, script_id)) :
    dir = appdir ∧
    (∀ base, env.strip_parent_dir startjs_full = base ++ ".js".toList →
      script_id = mod ++ "/".toList ++ base) ∧
    ((¬ ∃ base, env.strip_parent_dir startjs_full = base ++ ".js".toList) →
      script_id = mod ++ "/".toList ++ env.strip_parent_dir startjs_full) ∧
    (env.strip_parent_dir startjs_full = "app.js.js".toList →
      script_id = mod ++ "/".toList ++ "app.js".toList) := by
  unfold find_startup_module at h
  cases hr : resolve_mod env n appdir with
  | error e => rw [hr] at h; cases h
  | ok m =>
    rw [hr] at h
    simp only [Except.ok.injEq, Prod.mk.injEq] at h
    obtain ⟨rfl, rfl, rfl⟩ := h
    have hbase : ∀ base, env.strip_parent_dir startjs_full = base ++ ".js".toList →
        (if ends_with (env.strip_parent_dir startjs_full) ".js".toList = true then
          substr0 (env.strip_parent_dir startjs_full)
            (size_sub (env.strip_parent_dir startjs_full).length 3)
        else env.strip_parent_dir startjs_full) = base := by
      intro base hb
      have he : ends_with (env.strip_parent_dir startjs_full) ".js".toList = true :=
        (ends_with_iff _ _).2 ⟨base, hb⟩
      have hs := substr0_size_sub _ _ he
      change substr0 (env.strip_parent_dir startjs_full)
        (size_sub (env.strip_parent_dir startjs_full).length 3) = _ at hs
      rw [if_pos he, hs, hb, removeSuffix_append]
    refine ⟨rfl, ?_, ?_, ?_⟩
    · intro base hb
      rw [hbase base hb]
    · intro hno
      have he : ¬ ends_with (env.strip_parent_dir startjs_full) ".js".toList = true :=
        fun he => hno ((ends_with_iff _ _).1 he)
      rw [if_neg he]
    · intro hb
      rw [hbase "app.js".toList (by rw [hb]; rfl)]

/-- C9, instantiated: the script `/srv/app/app.js.js` started under the
explicit module name `main` gets the id `main/app.js`. -/
theorem find_startup_module_script_id_witness :
    find_startup_module sample_env "main".toList "/srv/app/app.js.js".toList
        "/srv/app/".toList =
      .ok ("main".toList, "/srv/app/".toList, "main/app.js".toList) ∧
    sample_env.strip_parent_dir "/srv/app/app.js.js".toList = "app.js.js".toList ∧
    "main/app.js".toList = "main".toList ++ "/".toList ++ "app.js".toList :=
  ⟨rfl, rfl, (find_startup_module_script_id sample_env "main".toList
    "/srv/app/app.js.js".toList "/srv/app/".toList "main".toList "/srv/app/".toList
    "main/app.js".toList rfl).2.2.2 rfl⟩

/-! ### Exit code interpretation -/

set_option maxRecDepth 100000 in
theorem toDigits_length_le_three (n : Nat) (hn : n ≤ 255) :
    (Nat.toDigits 10 n).length ≤ 3 := by
  have key : ∀ m : Fin 256, (Nat.toDigits 10 m.val).length ≤ 3 := by decide
  exact key ⟨n, by omega⟩

/-- C10: for every `n` between 0 and 255 whose decimal representation (no
leading zeros, at most 3 bytes) the parser reads as `n`, `parse_exit_code`
applied to that representation returns the override `n`. -/
theorem parse_exit_code_decimal (env : Env) (n : Nat) (hn : n ≤ 255)
    (hparse : env.parse_uint16 (Nat.toDigits 10 n) = .ok n) :
    (Nat.toDigits 10 n).length ≤ 3 ∧
    parse_exit_code env (Nat.toDigits 10 n) = some n := by
  have hlen := toDigits_length_le_three n hn
  refine ⟨hlen, ?_⟩
  have h16 : n % 2 ^ 16 = n := Nat.mod_eq_of_lt (by omega)
  have h8 : n % 2 ^ 8 = n := Nat.mod_eq_of_lt (by omega)
  have hgt : ¬ (Nat.toDigits 10 n).length > 3 := by omega
  have hle : ¬ n > 255 := by omega
  simp only [parse_exit_code, hparse, if_neg hgt, h16, h8, if_neg hle]

/-- C10, instantiated: the span `42` gives the override 42. -/
theorem parse_exit_code_decimal_witness :
    Nat.toDigits 10 42 = "42".toList ∧
    parse_exit_code sample_env "42".toList = some 42 :=
  ⟨rfl, (parse_exit_code_decimal sample_env 42 (by decide) rfl).2⟩

/-! ### The sample helpers meet the assumptions made on the external ones -/

set_option maxRecDepth 100000 in
theorem sample_parse_uint16_toDigits (n : Nat) (hn : n ≤ 255) :
    sample_parse_uint16 (Nat.toDigits 10 n) = .ok n := by
  have key : ∀ m : Fin 256,
      (match sample_parse_uint16 (Nat.toDigits 10 m.val) with
       | .ok v => v == m.val
       | .error _ => false) = true := by
    decide
  have hk := key ⟨n, by omega⟩
  cases hp : sample_parse_uint16 (Nat.toDigits 10 n) with
  | error e => simp [hp] at hk
  | ok v =>
    simp only [hp, beq_iff_eq] at hk
    rw [hk]

theorem sample_strip_parent_dir_suffix (b : Str) :
    ends_with (sample_strip_parent_dir (b ++ ".wlib".toList)) ".wlib".toList = true := by
  rw [ends_with_iff]
  refine ⟨(b.reverse.takeWhile (fun c => !is_separator c)).reverse, ?_⟩
  simp [sample_strip_parent_dir, is_separator, List.takeWhile, List.dropWhile]

/-! ### Exit code interpretation: no override -/

/-- C11: `parse_exit_code` is total and returns no override for every span
longer than 3 bytes (such as `9999` and `0042`), for every span the parser
rejects, and for every span whose parsed value exceeds 255; in each of these
cases a run whose script returned that span without error ends with exit
status 0. -/
theorem parse_exit_code_no_override (env : Env) (span : Str) :
    (span.length > 3 →
      parse_exit_code env span = none ∧ (script_exit_status env none span).1 = 0) ∧
    ((∀ v, env.parse_uint16 span ≠ .ok v) →
      parse_exit_code env span = none ∧ (script_exit_status env none span).1 = 0) ∧
    (∀ v, env.parse_uint16 span = .ok v → v < 2 ^ 16 → 255 < v →
      parse_exit_code env span = none ∧ (script_exit_status env none span).1 = 0) ∧
    parse_exit_code env "9999".toList = none ∧
    parse_exit_code env "0042".toList = none ∧
    (script_exit_status env none "9999".toList).1 = 0 := by
  have hstatus : parse_exit_code env span = none →
      (script_exit_status env none span).1 = 0 := by
    intro h
    simp only [script_exit_status, h]
    split <;> rfl
  refine ⟨?_, ?_, ?_, rfl, rfl, rfl⟩
  · intro hlen
    have h : parse_exit_code env span = none := by
      simp only [parse_exit_code, if_pos hlen]
    exact ⟨h, hstatus h⟩
  · intro hno
    have h : parse_exit_code env span = none := by
      unfold parse_exit_code
      split
      · rfl
      · cases hp : env.parse_uint16 span with
        | error e => rfl
        | ok v => exact absurd hp (hno v)
    exact ⟨h, hstatus h⟩
  · intro v hv hlt hgt
    have h : parse_exit_code env span = none := by
      unfold parse_exit_code
      split
      · rfl
      · have h16 : v % 2 ^ 16 = v := Nat.mod_eq_of_lt hlt
        have hc : v % 2 ^ 16 > 255 := by omega
        simp only [hv, if_pos hc]
    exact ⟨h, hstatus h⟩

/-- C11, instantiated: the sample parser rejects `abc` and reads `256` and
`999` as numbers above 255; none overrides the exit status. -/
theorem parse_exit_code_no_override_witness :
    (parse_exit_code sample_env "abc".toList = none ∧
      (script_exit_status sample_env none "abc".toList).1 = 0) ∧
    (parse_exit_code sample_env "256".toList = none ∧
      (script_exit_status sample_env none "256".toList).1 = 0) ∧
    parse_exit_code sample_env "999".toList = none :=
  ⟨(parse_exit_code_no_override sample_env "abc".toList).2.1
      (by intro v h; cases h),
    (parse_exit_code_no_override sample_env "256".toList).2.2.1 256 rfl
      (by decide) (by decide),
    rfl⟩

/-! ### Source classification -/

theorem starts_with_define_not_import (t : Str)
    (h : starts_with t "define".toList = true) : starts_with t "import".toList = false := by
  cases t with
  | nil => rfl
  | cons c cs =>
    have hc : c = 'd' := by
      have h2 : (c == 'd' && starts_with cs "efine".toList) = true := h
      simp only [Bool.and_eq_true, beq_iff_eq] at h2
      exact h2.1
    subst hc
    rfl

theorem scannedLines_length (env : Env) (count : Nat) (buf : Str) :
    (scannedLines env count buf).length = count := by
  induction count generalizing buf with
  | zero => rfl
  | succ n ih => simp only [scannedLines, List.length_cons, ih]

theorem check_es_module_loop_iff (env : Env) (count : Nat) (buf : Str) :
    check_es_module_loop env count buf = true ↔
      ∃ i l, (scannedLines env count buf).get? i = some l ∧
        starts_with l "import".toList = true ∧
        ∀ j k, j < i → (scannedLines env count buf).get? j = some k →
          starts_with k "define".toList = false ∧ starts_with k "import".toList = false := by
  induction count generalizing buf with
  | zero =>
    constructor
    · intro h
      cases h
    · rintro ⟨i, l, h, -⟩
      cases h
  | succ n ih =>
    unfold check_es_module_loop
    by_cases hd : starts_with (env.trim (env.read_line buf).1) "define".toList = true
    · simp only [hd, if_true]
      constructor
      · intro h
        cases h
      · rintro ⟨i, l, hl, himp, hprev⟩
        cases i with
        | zero =>
          simp only [scannedLines, List.get?_cons_zero, Option.some.injEq] at hl
          subst hl
          rw [starts_with_define_not_import _ hd] at himp
          cases himp
        | succ i =>
          have := (hprev 0 _ (Nat.succ_pos i) rfl).1
          rw [hd] at this
          cases this
    · by_cases hi : starts_with (env.trim (env.read_line buf).1) "import".toList = true
      · rw [if_neg hd, if_pos hi]
        refine ⟨fun _ => ?_, fun _ => rfl⟩
        exact ⟨0, _, rfl, hi, fun j k hj => absurd hj (Nat.not_lt_zero j)⟩
      · rw [if_neg hd, if_neg hi, ih]
        constructor
        · rintro ⟨i, l, hl, himp, hprev⟩
          refine ⟨i + 1, l, hl, himp, ?_⟩
          intro j k hj hk
          cases j with
          | zero =>
            simp only [scannedLines, List.get?_cons_zero, Option.some.injEq] at hk
            subst hk
            exact ⟨by simpa using hd, by simpa using hi⟩
          | succ j => exact hprev j k (Nat.lt_of_succ_lt_succ hj) hk
        · rintro ⟨i, l, hl, himp, hprev⟩
          cases i with
          | zero =>
            simp only [scannedLines, List.get?_cons_zero, Option.some.injEq] at hl
            subst hl
            exact absurd himp hi
          | succ i =>
            refine ⟨i, l, hl, himp, ?_⟩
            intro j k hj hk
            exact hprev (j + 1) k (Nat.succ_lt_succ hj) hk

/-- C12: for a file with content `content`, `check_es_module` returns, and it
returns `true` exactly when one of the 32 lines read from the first 1024
bytes starts, once trimmed, with `import` while no line before it starts with
`define` or `import`; in every other case (the first such line starts with
`define`, or no such line lies among those 32 lines) it returns `false`. -/
theorem check_es_module_classifies (env : Env) (path content : Str)
    (h : env.file_source path = .ok content) :
    (scannedLines env 32 (content.take 1024)).length = 32 ∧
    (check_es_module env path = .ok true ∨ check_es_module env path = .ok false) ∧
    (check_es_module env path = .ok true ↔
      ∃ i l, (scannedLines env 32 (content.take 1024)).get? i = some l ∧
        starts_with l "import".toList = true ∧
        ∀ j k, j < i → (scannedLines env 32 (content.take 1024)).get? j = some k →
          starts_with k "define".toList = false ∧ starts_with k "import".toList = false) := by
  have hc : check_es_module env path =
      .ok (check_es_module_loop env 32 (content.take 1024)) := by
    simp only [check_es_module, h]
  refine ⟨scannedLines_length _ _ _, ?_, ?_⟩
  · rw [hc]
    cases check_es_module_loop env 32 (content.take 1024)
    · exact Or.inr rfl
    · exact Or.inl rfl
  · rw [hc, ← check_es_module_loop_iff]
    simp only [Except.ok.injEq]

set_option maxRecDepth 100000 in
/-- C12, instantiated on the sample files: five blank lines followed by
`import foo from "bar";` classify as ES module, a script starting with
`define(` does not, nor does a script without either token, nor one whose
`import` is on line 33 or behind byte 1024. -/
theorem check_es_module_classifies_witness :
    check_es_module sample_env "/srv/app/esm.js".toList = .ok true ∧
    check_es_module sample_env "/srv/app/index.js".toList = .ok false ∧
    check_es_module sample_env "/srv/app/plain.js".toList = .ok false ∧
    check_es_module sample_env "/srv/app/late.js".toList = .ok false ∧
    check_es_module sample_env "/srv/app/far.js".toList = .ok false ∧
    ∃ i l,
      (scannedLines sample_env 32
        ("\n\n\n\n\nimport foo from \"bar\";\n".toList.take 1024)).get? i = some l ∧
      starts_with l "import".toList = true ∧
      ∀ j k, j < i →
        (scannedLines sample_env 32
          ("\n\n\n\n\nimport foo from \"bar\";\n".toList.take 1024)).get? j = some k →
        starts_with k "define".toList = false ∧ starts_with k "import".toList = false :=
  ⟨rfl, rfl, rfl, rfl, rfl,
    (check_es_module_classifies sample_env "/srv/app/esm.js".toList
      "\n\n\n\n\nimport foo from \"bar\";\n".toList rfl).2.2.1 rfl⟩

/-! ### One-liner synthesis -/

theorem split_loop_ne_nil (delim : Char) (str item : Str) :
    ∀ t ∈ split_loop delim str item, t ≠ [] := by
  induction str generalizing item with
  | nil =>
    intro t ht
    cases item with
    | nil => simp [split_loop] at ht
    | cons c cs =>
      simp only [split_loop, List.isEmpty_cons, Bool.false_eq_true, if_false,
        List.mem_singleton] at ht
      rw [ht]
      exact List.cons_ne_nil _ _
  | cons c cs ih =>
    intro t ht
    unfold split_loop at ht
    by_cases hc : (c == delim) = true
    · rw [if_pos hc] at ht
      cases item with
      | nil =>
        simp only [List.isEmpty_nil, if_true] at ht
        exact ih _ t ht
      | cons d ds =>
        simp only [List.isEmpty_cons, Bool.false_eq_true, if_false, List.mem_cons] at ht
        rcases ht with rfl | ht
        · exact List.cons_ne_nil _ _
        · exact ih _ t ht
    · rw [if_neg hc] at ht
      exact ih _ t ht

theorem split_ne_nil (str : Str) (delim : Char) : ∀ t ∈ split str delim, t ≠ [] :=
  split_loop_ne_nil delim str []

theorem intercalate_cons_cons (sep x y : Str) (tl : List Str) :
    List.intercalate sep (x :: y :: tl) = x ++ sep ++ List.intercalate sep (y :: tl) := by
  simp [List.intercalate, List.intersperse]

theorem one_liner_loop_eq (size i : Nat) (rest : List Str) (deps_line args_line : Str)
    (hsize : i + rest.length = size)
    (hdep : ∀ d ∈ rest, d ≠ []) (hseg : ∀ d ∈ rest, split d '/' ≠ []) :
    one_liner_loop size i rest (deps_line, args_line) =
      (deps_line ++ List.intercalate ", ".toList
          (rest.map (fun d => "\"".toList ++ d ++ "\"".toList)),
        args_line ++ List.intercalate ", ".toList
          (rest.map (fun d => (split d '/').getLast?.getD []))) := by
  induction rest generalizing i deps_line args_line with
  | nil => simp [one_liner_loop, List.intercalate]
  | cons d tl ih =>
    have hd : d.length > 0 := List.length_pos.2 (hdep d (List.mem_cons_self _ _))
    have hs : (split d '/').length > 0 := List.length_pos.2 (hseg d (List.mem_cons_self _ _))
    have htl1 : ∀ x ∈ tl, x ≠ [] := fun x hx => hdep x (List.mem_cons_of_mem _ hx)
    have htl2 : ∀ x ∈ tl, split x '/' ≠ [] := fun x hx => hseg x (List.mem_cons_of_mem _ hx)
    have hlen : i + 1 + tl.length = size := by
      simp only [List.length_cons] at hsize
      omega
    unfold one_liner_loop
    simp only [if_pos hd, if_pos hs]
    cases tl with
    | nil =>
      have hi : ¬ i < size_sub size 1 := by
        simp only [List.length_nil] at hlen
        rw [size_sub_of_le _ _ (by omega)]
        omega
      simp only [if_neg hi, one_liner_loop, List.map_cons, List.map_nil]
      simp [List.intercalate]
    | cons e tl2 =>
      have hi : i < size_sub size 1 := by
        simp only [List.length_cons] at hlen
        rw [size_sub_of_le _ _ (by omega)]
        omega
      simp only [if_pos hi]
      rw [ih (i + 1) _ _ hlen htl1 htl2]
      simp only [List.map_cons, intercalate_cons_cons, List.append_assoc]

/-- C14 (counterexample): for the dependency list `a:/:b` the dependency array
has three elements and the parameter list two; the third dependency is bound
to the second parameter. -/
theorem one_liner_fewer_parameters :
    split "a:/:b".toList ':' = ["a".toList, "/".toList, "b".toList] ∧
    one_liner_deps "a:/:b".toList = ("\"a\", \"/\", \"b\"".toList, "a, b".toList) ∧
    one_liner_script "a:/:b".toList "1".toList =
      ("\ndefine([\"a\", \"/\", \"b\"], function(a, b) \x7b\n    \"use strict\";\n" ++
       "    return \x7b\n        main: function() \x7b\n" ++
       "            var RESULT = 1;\n            print(RESULT);\n" ++
       "        \x7d\n    \x7d;\n\x7d);").toList :=
  ⟨rfl, rfl, rfl⟩

/-- C14 (amended): for every colon-separated dependency list whose
dependencies each have a `/`-separated segment (each holds a character other
than `/`) and every inline expression, the script body is the fixed template
with the dependencies, each in double quotes, joined by `, ` as the
dependency array, and the final `/`-separated segments of the dependencies,
joined by `, ` in the same order, as the parameter list (one parameter per
dependency); `main` assigns the expression to `RESULT` and prints it.  An
empty dependency list gives an empty array and an empty parameter list. -/
theorem one_liner_script_eq (deps code : Str)
    (hseg : ∀ d ∈ split deps ':', split d '/' ≠ []) :
    one_liner_script deps code =
      "\ndefine([".toList ++
        List.intercalate ", ".toList
          ((split deps ':').map (fun d => "\"".toList ++ d ++ "\"".toList)) ++
      "], function(".toList ++
        List.intercalate ", ".toList
          ((split deps ':').map (fun d => (split d '/').getLast?.getD [])) ++
      ") \x7b\n    \"use strict\";\n    return \x7b\n        main: function() \x7b\n".toList ++
      "            var RESULT = ".toList ++ code ++
      ";\n            print(RESULT);\n        \x7d\n    \x7d;\n\x7d);".toList ∧
    ((split deps ':').map (fun d => "\"".toList ++ d ++ "\"".toList)).length =
      ((split deps ':').map (fun d => (split d '/').getLast?.getD [])).length ∧
    one_liner_deps [] = ([], []) := by
  refine ⟨?_, by simp, rfl⟩
  have hd : one_liner_deps deps =
      (List.intercalate ", ".toList
          ((split deps ':').map (fun d => "\"".toList ++ d ++ "\"".toList)),
        List.intercalate ", ".toList
          ((split deps ':').map (fun d => (split d '/').getLast?.getD []))) := by
    unfold one_liner_deps
    by_cases hlen : deps.length > 0
    · rw [if_pos hlen, one_liner_loop_eq _ 0 _ [] [] (Nat.zero_add _) (split_ne_nil _ _) hseg]
      rfl
    · have hnil : deps = [] := List.length_eq_zero.mp (by omega)
      subst hnil
      rfl
  unfold one_liner_script one_liner_template
  rw [hd]

/-- C14 (amended), instantiated: the dependencies `wilton/fs` and `lodash` and
the expression `fs.exists("a")`. -/
theorem one_liner_script_eq_witness :
    one_liner_script "wilton/fs:lodash".toList "fs.exists(\"a\")".toList =
      ("\ndefine([\"wilton/fs\", \"lodash\"], function(fs, lodash) \x7b\n" ++
       "    \"use strict\";\n    return \x7b\n        main: function() \x7b\n" ++
       "            var RESULT = fs.exists(\"a\");\n            print(RESULT);\n" ++
       "        \x7d\n    \x7d;\n\x7d);").toList :=
  (one_liner_script_eq "wilton/fs:lodash".toList "fs.exists(\"a\")".toList
    (by decide)).1.trans rfl

/-! ### Startup invocation -/

/-- C13: the startup invocation is built in this order: with the load-only
flag set it is `{module: startupModuleId}`, whatever the ES-module flag and
the script are; otherwise, with the ES-module flag set or a script that
`check_es_module` classifies as ES module, it is
`{esmodule: "file://" + absolute script path, args}`; otherwise it is
`{module: startupModuleId, func: "main", args}`; `args` is the application
argument list in its order.  (When the classifier is needed and cannot read
the script, its exception is passed on and no invocation is built.) -/
theorem startup_call_shapes (env : Env) (opts : cli_options)
    (startmod_id startjs_full : Str) (appargs : List Str) :
    (opts.load_only ≠ 0 →
      startup_call env opts startmod_id startjs_full appargs =
        .ok (.object [("module".toList, .string startmod_id)])) ∧
    (opts.load_only = 0 →
      (opts.es_module ≠ 0 ∨ check_es_module env startjs_full = .ok true) →
      startup_call env opts startmod_id startjs_full appargs =
        .ok (.object [("esmodule".toList, .string ("file://".toList ++ startjs_full)),
                      ("args".toList, .array (appargs.map json_value.string))])) ∧
    (opts.load_only = 0 → opts.es_module = 0 →
      check_es_module env startjs_full = .ok false →
      startup_call env opts startmod_id startjs_full appargs =
        .ok (.object [("module".toList, .string startmod_id),
                      ("func".toList, .string "main".toList),
                      ("args".toList, .array (appargs.map json_value.string))])) ∧
    (opts.load_only = 0 → opts.es_module = 0 →
      ∀ e, check_es_module env startjs_full = .error e →
      startup_call env opts startmod_id startjs_full appargs = .error e) := by
  refine ⟨?_, ?_, ?_, ?_⟩
  · intro h
    simp only [startup_call, if_pos h]
  · intro h0 h
    have hn : ¬ opts.load_only ≠ 0 := fun hc => hc h0
    by_cases he : opts.es_module ≠ 0
    · simp only [startup_call, if_neg hn, if_pos he]
    · rcases h with h | h
      · exact absurd h he
      · simp only [startup_call, if_neg hn, if_neg he, h]
  · intro h0 h1 h
    have hn : ¬ opts.load_only ≠ 0 := fun hc => hc h0
    have he : ¬ opts.es_module ≠ 0 := fun hc => hc h1
    simp only [startup_call, if_neg hn, if_neg he, h]
  · intro h0 h1 e h
    have hn : ¬ opts.load_only ≠ 0 := fun hc => hc h0
    have he : ¬ opts.es_module ≠ 0 := fun hc => hc h1
    simp only [startup_call, if_neg hn, if_neg he, h]

/-- C13, instantiated: with the load-only and ES-module flags both set the
load-only shape is built; the sample script `esm.js` started without flags
gets the ES-module shape, with its two arguments in order. -/
theorem startup_call_shapes_witness :
    startup_call sample_env
        ⟨"/srv/app/esm.js".toList, [], [], 0, [], [], 1, 1, 0, 0, [], []⟩
        "app/esm".toList "/srv/app/esm.js".toList ["-v".toList, "x".toList] =
      .ok (.object [("module".toList, .string "app/esm".toList)]) ∧
    startup_call sample_env
        ⟨"/srv/app/esm.js".toList, [], [], 0, [], [], 0, 0, 0, 0, [], []⟩
        "app/esm".toList "/srv/app/esm.js".toList ["-v".toList, "x".toList] =
      .ok (.object [("esmodule".toList, .string "file:///srv/app/esm.js".toList),
                    ("args".toList, .array [.string "-v".toList, .string "x".toList])]) ∧
    startup_call sample_env
        ⟨"/srv/app/index.js".toList, [], [], 0, [], [], 0, 0, 0, 0, [], []⟩
        "app/index".toList "/srv/app/index.js".toList ["-v".toList, "x".toList] =
      .ok (.object [("module".toList, .string "app/index".toList),
                    ("func".toList, .string "main".toList),
                    ("args".toList, .array [.string "-v".toList, .string "x".toList])]) :=
  ⟨(startup_call_shapes sample_env
      ⟨"/srv/app/esm.js".toList, [], [], 0, [], [], 1, 1, 0, 0, [], []⟩
      "app/esm".toList "/srv/app/esm.js".toList ["-v".toList, "x".toList]).1 (by decide),
   (startup_call_shapes sample_env
      ⟨"/srv/app/esm.js".toList, [], [], 0, [], [], 0, 0, 0, 0, [], []⟩
      "app/esm".toList "/srv/app/esm.js".toList ["-v".toList, "x".toList]).2.1 rfl
      (Or.inr rfl),
   (startup_call_shapes sample_env
      ⟨"/srv/app/index.js".toList, [], [], 0, [], [], 0, 0, 0, 0, [], []⟩
      "app/index".toList "/srv/app/index.js".toList ["-v".toList, "x".toList]).2.2.1 rfl rfl
      rfl⟩

/-! ### Environment variables -/

theorem split_loop_append (delim : Char) (t rest item : Str) (ht : delim ∉ t) :
    split_loop delim (t ++ rest) item = split_loop delim rest (item ++ t) := by
  induction t generalizing item with
  | nil => simp
  | cons c cs ih =>
    have hc : ¬ (c == delim) = true := by
      intro h
      exact ht (by rw [beq_iff_eq.1 h]; exact List.mem_cons_self _ _)
    have hcs : delim ∉ cs := fun h => ht (List.mem_cons_of_mem _ h)
    rw [List.cons_append, split_loop, if_neg hc, ih _ hcs]
    simp

theorem split_intercalate (delim : Char) (toks : List Str)
    (h : ∀ t ∈ toks, t ≠ [] ∧ delim ∉ t) :
    split (List.intercalate [delim] toks) delim = toks := by
  unfold split
  induction toks with
  | nil => rfl
  | cons t tl ih =>
    obtain ⟨hne, hfree⟩ := h t (List.mem_cons_self _ _)
    have htl : ∀ x ∈ tl, x ≠ [] ∧ delim ∉ x := fun x hx => h x (List.mem_cons_of_mem _ hx)
    have hemp : t.isEmpty = false := by
      cases t with
      | nil => exact absurd rfl hne
      | cons c cs => rfl
    cases tl with
    | nil =>
      have h1 : List.intercalate [delim] [t] = t ++ [] := by simp [List.intercalate]
      rw [h1, split_loop_append _ _ _ _ hfree]
      simp only [List.nil_append, split_loop, hemp, Bool.false_eq_true, if_false]
    | cons u tl2 =>
      rw [intercalate_cons_cons, List.append_assoc, split_loop_append _ _ _ _ hfree]
      show split_loop delim (delim :: List.intercalate [delim] (u :: tl2)) t = _
      rw [split_loop]
      simp only [beq_self_eq_true, if_true, hemp, Bool.false_eq_true, if_false]
      rw [ih htl]

theorem get_env_var_value_loop_eq (env : Env) (rest : List Str) (value : Str) :
    get_env_var_value_loop env rest value =
      List.intercalate ['='] (value :: rest.map env.trim) := by
  induction rest generalizing value with
  | nil => simp [get_env_var_value_loop, List.intercalate]
  | cons p tl ih =>
    rw [get_env_var_value_loop, ih, List.map_cons, intercalate_cons_cons]
    cases tl with
    | nil => simp [List.intercalate]
    | cons q tl2 =>
      simp only [List.map_cons, intercalate_cons_cons, List.append_assoc]

theorem get_env_var_value_eq (env : Env) (part0 part1 : Str) (rest : List Str) :
    get_env_var_value env (part0 :: part1 :: rest) =
      .ok (List.intercalate ['='] ((part1 :: rest).map env.trim)) := by
  simp only [get_env_var_value, get_env_var_value_loop_eq, List.map_cons]

theorem collect_env_vars_loop_eq (env : Env) (environ : List Str) (vec : List field) :
    collect_env_vars_loop env environ vec =
      .ok (vec ++ environ.filterMap (envVarField env)) := by
  induction environ generalizing vec with
  | nil => simp [collect_env_vars_loop]
  | cons var rest ih =>
    rw [collect_env_vars_loop, List.filterMap_cons]
    cases hs : split var '=' with
    | nil =>
      have hf : envVarField env var = none := by
        unfold envVarField
        rw [hs]
      simp [hf, ih]
    | cons p0 tl =>
      cases tl with
      | nil =>
        have hf : envVarField env var = none := by
          unfold envVarField
          rw [hs]
        simp [hf, ih]
      | cons p1 tl2 =>
        have hf : envVarField env var = some ⟨env.replace_invalid (env.trim p0),
            env.replace_invalid (List.intercalate ['='] ((p1 :: tl2).map env.trim))⟩ := by
          unfold envVarField
          rw [hs]
        have hlen : (p0 :: p1 :: tl2).length ≥ 2 := by simp
        simp only [hf, if_pos hlen, get_env_var_value_eq, ih, List.headD_cons,
          List.append_assoc, List.singleton_append]

/-- C16 (counterexample): the entry `A=` followed by the byte `0xFF` has a
non-empty value of one segment without surrounding whitespace, yet
`collect_env_vars` records the three bytes `EF BF BD` for it; and for the
entry `=x=y`, whose name is empty, the value `x=y` is recorded as `y`. -/
theorem env_var_value_not_preserved :
    sample_env.trim [Char.ofNat 255] = [Char.ofNat 255] ∧
    collect_env_vars sample_env ["A=".toList ++ [Char.ofNat 255]] =
      .ok [⟨"A".toList, [Char.ofNat 239, Char.ofNat 191, Char.ofNat 189]⟩] ∧
    split "=x=y".toList '=' = ["x".toList, "y".toList] ∧
    get_env_var_value sample_env (split "=x=y".toList '=') = .ok "y".toList ∧
    collect_env_vars sample_env ["=x=y".toList] = .ok [⟨"x".toList, "y".toList⟩] :=
  ⟨rfl, rfl, rfl, rfl, rfl⟩

/-- C16 (amended): `get_env_var_value` fails when given fewer than 2 parts and
otherwise returns the parts after the first, each trimmed, joined by single
`=`.  Consequently, for an entry `NAME=VALUE` with `NAME` non-empty and free
of `=`, and `VALUE` made of one or more non-empty segments separated by
single `=`, none with leading or trailing whitespace: the value
`set_env_vars` passes to `setenv` is `VALUE` exactly, and the value
`collect_env_vars` records is `VALUE` with its invalid UTF-8 sequences
replaced, hence `VALUE` exactly when it is valid UTF-8. -/
theorem env_var_value_preserved {P : Type} (env : Env)
    (setenv : P → Str → Str → Int × P) (name : Str) (segs : List Str)
    (hname : name ≠ [] ∧ '=' ∉ name) (hsegs : segs ≠ [])
    (hseg : ∀ s ∈ segs, s ≠ [] ∧ '=' ∉ s ∧ env.trim s = s) :
    (∀ parts, parts.length < 2 →
      get_env_var_value env parts = .error (.invalid_env_var_vector parts.length)) ∧
    (∀ part0 part1 rest, get_env_var_value env (part0 :: part1 :: rest) =
      .ok (List.intercalate ['='] ((part1 :: rest).map env.trim))) ∧
    split (name ++ '=' :: List.intercalate ['='] segs) '=' = name :: segs ∧
    get_env_var_value env (split (name ++ '=' :: List.intercalate ['='] segs) '=') =
      .ok (List.intercalate ['='] segs) ∧
    (∀ rest penv,
      set_env_vars_loop env setenv ((name ++ '=' :: List.intercalate ['='] segs) :: rest)
          penv =
        if 0 ≠ (setenv penv (env.trim name) (List.intercalate ['='] segs)).1 then
          (some (.setenv_failed (env.trim name) (List.intercalate ['='] segs)),
            (setenv penv (env.trim name) (List.intercalate ['='] segs)).2)
        else
          set_env_vars_loop env setenv rest
            (setenv penv (env.trim name) (List.intercalate ['='] segs)).2) ∧
    (∀ environ, name ++ '=' :: List.intercalate ['='] segs ∈ environ →
      ∃ vec, collect_env_vars env environ = .ok vec ∧
        (⟨env.replace_invalid (env.trim name),
          env.replace_invalid (List.intercalate ['='] segs)⟩ : field) ∈ vec ∧
        (env.replace_invalid (List.intercalate ['='] segs) = List.intercalate ['='] segs →
          (⟨env.replace_invalid (env.trim name), List.intercalate ['='] segs⟩ : field) ∈
            vec)) := by
  obtain ⟨s0, stl, rfl⟩ : ∃ s0 stl, segs = s0 :: stl := by
    cases segs with
    | nil => exact absurd rfl hsegs
    | cons a b => exact ⟨a, b, rfl⟩
  have htrim : (s0 :: stl).map env.trim = s0 :: stl := by
    have : (s0 :: stl).map env.trim = (s0 :: stl).map id :=
      List.map_congr_left (fun s hs => (hseg s hs).2.2)
    rw [this, List.map_id]
  have hsplit : split (name ++ '=' :: List.intercalate ['='] (s0 :: stl)) '=' =
      name :: s0 :: stl := by
    have hjoin : name ++ '=' :: List.intercalate ['='] (s0 :: stl) =
        List.intercalate ['='] (name :: s0 :: stl) := by
      rw [intercalate_cons_cons]
      simp
    rw [hjoin]
    apply split_intercalate
    intro t ht
    rcases List.mem_cons.1 ht with rfl | ht
    · exact hname
    · exact ⟨(hseg t ht).1, (hseg t ht).2.1⟩
  have hval : get_env_var_value env
      (split (name ++ '=' :: List.intercalate ['='] (s0 :: stl)) '=') =
      .ok (List.intercalate ['='] (s0 :: stl)) := by
    rw [hsplit, get_env_var_value_eq, htrim]
  refine ⟨?_, get_env_var_value_eq env, hsplit, hval, ?_, ?_⟩
  · intro parts hlen
    cases parts with
    | nil => rfl
    | cons a tl =>
      cases tl with
      | nil => rfl
      | cons b tl2 =>
        simp only [List.length_cons] at hlen
        omega
  · intro rest penv
    conv_lhs => unfold set_env_vars_loop
    have hlen : ¬ (split (name ++ '=' :: List.intercalate ['='] (s0 :: stl)) '=').length < 2 := by
      rw [hsplit]
      simp
    simp only [if_neg hlen, hval]
    rw [hsplit]
    rfl
  · intro environ hmem
    have hfield : envVarField env (name ++ '=' :: List.intercalate ['='] (s0 :: stl)) =
        some ⟨env.replace_invalid (env.trim name),
          env.replace_invalid (List.intercalate ['='] (s0 :: stl))⟩ := by
      unfold envVarField
      rw [hsplit]
      show some (⟨env.replace_invalid (env.trim name), env.replace_invalid
        (List.intercalate ['='] ((s0 :: stl).map env.trim))⟩ : field) = _
      rw [htrim]
    have hin : (⟨env.replace_invalid (env.trim name),
        env.replace_invalid (List.intercalate ['='] (s0 :: stl))⟩ : field) ∈
        List.insertionSort (fun a b : field => ¬ b.name < a.name)
          (environ.filterMap (envVarField env)) := by
      rw [(List.perm_insertionSort _ _).mem_iff, List.mem_filterMap]
      exact ⟨_, hmem, hfield⟩
    refine ⟨_, ?_, hin, ?_⟩
    · simp only [collect_env_vars, collect_env_vars_loop_eq, List.nil_append]
    · intro hvalid
      rw [hvalid] at hin
      exact hin

/-- C16 (amended), instantiated: the entry `OPTS=a=b`, set through
`set_env_vars` on an environment kept as a list of pairs and collected from
`environ`, keeps its value `a=b`. -/
theorem env_var_value_preserved_witness :
    set_env_vars sample_env (fun penv name value => ((0 : Int), (name, value) :: penv))
        "OPTS=a=b".toList [] = (none, [("OPTS".toList, "a=b".toList)]) ∧
    collect_env_vars sample_env ["PATH=/bin".toList, "OPTS=a=b".toList] =
      .ok [⟨"OPTS".toList, "a=b".toList⟩, ⟨"PATH".toList, "/bin".toList⟩] ∧
    get_env_var_value sample_env (split ("OPTS".toList ++ '=' ::
        List.intercalate ['='] ["a".toList, "b".toList]) '=') =
      .ok (List.intercalate ['='] ["a".toList, "b".toList]) :=
  ⟨rfl, rfl,
    (env_var_value_preserved sample_env
      (fun (penv : List (Str × Str)) name value => ((0 : Int), (name, value) :: penv))
      "OPTS".toList ["a".toList, "b".toList] (by decide) (by decide)
      (by decide)).2.2.2.1⟩

/-! ### The ephemeral script -/

/-- C15: in one-liner mode, once `write_temp_one_liner` has written the
script at `path`, `run_startup_script` ends with the outcome of the code that
follows (an exit status 0, 1 or the script's own, or an exception of a later
stage) and, whatever that outcome is, in a state where `std::remove` has been
applied to `path` last; the file then does not exist, `std::remove` being
assumed to delete the file it is given. -/
theorem run_startup_script_removes_one_liner {W : Type} (sys : Sys W)
    (hremove : ∀ w p, ((sys.view (sys.remove w p)).tinydir_path p).file_exists = false)
    (opts : cli_options) (script_engine wilton_exec wilton_home modurl : Str)
    (packages : List json_value) (debug_port : Str) (env_vars : List field)
    (env_vars_pairs : List (Str × Str)) (appargs : List Str) (w w1 : W) (path : Str)
    (hone : opts.exec_one_liner ≠ 0)
    (hsynth : write_temp_one_liner sys opts.exec_deps opts.exec_code w = (.ok path, w1)) :
    ((sys.view (run_startup_script sys opts script_engine wilton_exec wilton_home modurl
        packages debug_port env_vars env_vars_pairs appargs w).2).tinydir_path
      path).file_exists = false ∧
    (run_startup_script sys opts script_engine wilton_exec wilton_home modurl
        packages debug_port env_vars env_vars_pairs appargs w).1 =
      (run_startup_script_body sys opts script_engine wilton_exec wilton_home modurl
        packages debug_port env_vars env_vars_pairs appargs path w1).1 ∧
    (run_startup_script sys opts script_engine wilton_exec wilton_home modurl
        packages debug_port env_vars env_vars_pairs appargs w).2 =
      sys.remove (run_startup_script_body sys opts script_engine wilton_exec wilton_home
        modurl packages debug_port env_vars env_vars_pairs appargs path w1).2 path := by
  have h0 : ¬ 0 = opts.exec_one_liner := fun h => hone h.symm
  have h1 : 0 ≠ opts.exec_one_liner := h0
  have hrun : run_startup_script sys opts script_engine wilton_exec wilton_home modurl
      packages debug_port env_vars env_vars_pairs appargs w =
      ((run_startup_script_body sys opts script_engine wilton_exec wilton_home modurl
        packages debug_port env_vars env_vars_pairs appargs path w1).1,
       sys.remove (run_startup_script_body sys opts script_engine wilton_exec wilton_home
        modurl packages debug_port env_vars env_vars_pairs appargs path w1).2 path) := by
    simp only [run_startup_script, if_neg h0, hsynth, if_pos h1]
  rw [hrun]
  exact ⟨hremove _ _, rfl, rfl⟩

theorem sample_sys_remove (script_output : Str) (w : List (path × Str)) (p : Str) :
    (((sample_sys script_output).view
      ((sample_sys script_output).remove w p)).tinydir_path p).file_exists = false := by
  have hnone : (w.filter (fun f : path × Str => f.1.filepath != p)).find?
      (fun f : path × Str => f.1.filepath == p) = none := by
    rw [List.find?_eq_none]
    intro x hx
    have := (List.mem_filter.1 hx).2
    simpa using this
  show (match (w.filter (fun f : path × Str => f.1.filepath != p)).find?
      (fun f : path × Str => f.1.filepath == p) with
    | some f => f.1
    | none => (⟨p, sample_strip_parent_dir p, false, false, false⟩ : path)).file_exists = false
  rw [hnone]

/-- C15, instantiated on the sample system: the one-liner `1+1` is written to
`/tmp/wilton_abcdefgh.js`; a run whose script returns `7` ends with status 7,
a run with the binary module list `/srv/mods/notes.txt` ends with the
exception of `prepare_paths`; after both the filesystem is the initial one,
without the temporary script. -/
theorem run_startup_script_removes_one_liner_witness :
    (write_temp_one_liner (sample_sys "7".toList) "wilton/fs".toList "1+1".toList
      sample_world).1 = .ok "/tmp/wilton_abcdefgh.js".toList ∧
    run_startup_script (sample_sys "7".toList)
        ⟨[], [], [], 1, "wilton/fs".toList, "1+1".toList, 0, 0, 0, 0, [], []⟩
        "quickjs".toList "/opt/wilton/bin/wilton".toList "/opt/wilton/".toList
        "zip:///opt/wilton/std.wlib".toList [] [] [] [] [] sample_world =
      (.ok 7, sample_world) ∧
    run_startup_script (sample_sys "7".toList)
        ⟨[], [], "/srv/mods/notes.txt".toList, 1, "wilton/fs".toList, "1+1".toList,
          0, 0, 0, 0, [], []⟩
        "quickjs".toList "/opt/wilton/bin/wilton".toList "/opt/wilton/".toList
        "zip:///opt/wilton/std.wlib".toList [] [] [] [] [] sample_world =
      (.error (.invalid_module_path "/srv/mods/notes.txt".toList), sample_world) ∧
    (((sample_sys "7".toList).view
      (run_startup_script (sample_sys "7".toList)
        ⟨[], [], "/srv/mods/notes.txt".toList, 1, "wilton/fs".toList, "1+1".toList,
          0, 0, 0, 0, [], []⟩
        "quickjs".toList "/opt/wilton/bin/wilton".toList "/opt/wilton/".toList
        "zip:///opt/wilton/std.wlib".toList [] [] [] [] [] sample_world).2).tinydir_path
      "/tmp/wilton_abcdefgh.js".toList).file_exists = false :=
  ⟨rfl, rfl, rfl,
    (run_startup_script_removes_one_liner (sample_sys "7".toList)
      (sample_sys_remove "7".toList)
      ⟨[], [], "/srv/mods/notes.txt".toList, 1, "wilton/fs".toList, "1+1".toList,
        0, 0, 0, 0, [], []⟩
      "quickjs".toList "/opt/wilton/bin/wilton".toList "/opt/wilton/".toList
      "zip:///opt/wilton/std.wlib".toList [] [] [] [] [] sample_world
      ((write_temp_one_liner (sample_sys "7".toList) "wilton/fs".toList "1+1".toList
        sample_world).2)
      "/tmp/wilton_abcdefgh.js".toList (by decide) rfl).1⟩

end WiltonCli
